import Mathlib

/-!
Verification development for the plutus-core simulation engine
(discrete-tick resource-flow graphs).

The definitions below are a shallow embedding of the TypeScript sources:
`src/nodes.ts` (Pool / Gate / Converter / Swap / Edge), the current
`graph.ts` (the object-map based `Graph` class with Swap support),
`compiler.ts` (activation, pool-input cut, converter-input cut) and the
current `executor.ts` (token-carrying `runEdge`).

Modelling conventions:
* JavaScript plain objects used as string-keyed maps are embedded as
  insertion-ordered association lists (`List (String × α)`) with
  JS-faithful first-match lookup, update-in-place, and append-on-new-key.
* Numbers are embedded as `ℚ` (exact arithmetic; the spec treats all
  quantities as reals and the numeric claims are about exact arithmetic).
* The expression sub-language (mathjs `BooleanFn` / `NumericFn` evaluated
  against a `VariableScope`) is an external collaborator per the spec;
  an element's condition/action is embedded as the value it evaluates to
  on the current tick (`condEval : Bool`, `actionEval : ℚ`).
* Methods that `throw` are embedded with `Except String` (or return the
  error message alongside the post-state when the claim is about the
  state left behind by a throwing call).
* General recursion (cascading deletion, DFS, the executor's edge walk)
  is embedded with an explicit fuel parameter; theorems either hold for
  every fuel or are stated with fuel large enough for the input.
-/

namespace Plutus

/-- JS object lookup (`obj[k]`): first binding of the key wins. -/
def jsGet {α : Type} : List (String × α) → String → Option α
  | [], _ => none
  | kv :: rest, k => if kv.1 = k then some kv.2 else jsGet rest k

/-- JS object write (`obj[k] = v`): update in place, else append. -/
def jsSet {α : Type} : List (String × α) → String → α → List (String × α)
  | [], k, v => [(k, v)]
  | kv :: rest, k, v => if kv.1 = k then (k, v) :: rest else kv :: jsSet rest k v

/-- JS `delete obj[k]`. -/
def jsDelete {α : Type} : List (String × α) → String → List (String × α)
  | [], _ => []
  | kv :: rest, k => if kv.1 = k then jsDelete rest k else kv :: jsDelete rest k

/-- JS `k in obj`. -/
def jsHas {α : Type} (m : List (String × α)) (k : String) : Bool :=
  (jsGet m k).isSome

/-- JS `Object.keys(obj)`. -/
def jsKeys {α : Type} (m : List (String × α)) : List String :=
  m.map Prod.fst

theorem jsGet_jsSet {α : Type} (m : List (String × α)) (k k2 : String) (v : α) :
    jsGet (jsSet m k v) k2 = if k2 = k then some v else jsGet m k2 := by
  induction m with
  | nil =>
    by_cases h : k2 = k
    · subst h; simp [jsSet, jsGet]
    · simp [jsSet, jsGet, h, Ne.symm h]
  | cons kv rest ih =>
    by_cases h1 : kv.1 = k
    · by_cases h : k2 = k
      · subst h; simp [jsSet, jsGet, h1]
      · simp [jsSet, jsGet, h1, h, Ne.symm h]
    · by_cases h2 : kv.1 = k2
      · have hk : ¬(k2 = k) := fun hh => h1 (by rw [h2, hh])
        simp [jsSet, jsGet, h1, h2, hk]
      · simp [jsSet, jsGet, h1, h2, ih]

/-! ## Element data model (`src/nodes.ts`) -/

/-- Label validity (`isValidLabel`): the regex `^[A-Za-z_$][A-Za-z0-9_$]*$`. -/
def isLabelStart (c : Char) : Bool := c.isAlpha || c = '_' || c = '$'

def isLabelChar (c : Char) : Bool := c.isAlphanum || c = '_' || c = '$'

def isValidLabel (s : String) : Bool :=
  match s.data with
  | [] => false
  | c :: cs => isLabelStart c && cs.all isLabelChar

/-- Default token for a label (`defaultToken`). -/
def defaultToken (label : String) : String := label ++ "_token"

/-- `Edge` fields. `rate` is negative iff the edge is unlimited (the
constructor and `setRate` normalise any negative rate to `-1`).
`condEval` is the value `condition.evaluate(scope)` returns this tick. -/
structure EdgeEl where
  label : String
  fromNode : String
  toNode : String
  rate : ℚ
  condEval : Bool
  deriving Repr, DecidableEq

def EdgeEl.isUnlimited (e : EdgeEl) : Bool := e.rate < 0

/-- `Pool` fields.  `capacity < 0` means unbounded.  `condEval` and
`actionEval` are the values the pool's condition/action expressions
evaluate to this tick (the expression engine is external). -/
structure PoolEl where
  label : String
  token : String
  state : ℚ
  capacity : ℚ
  fromEdge : Option String
  toEdge : Option String
  condEval : Bool
  actionEval : ℚ
  deriving Repr, DecidableEq

/-- `Gate` fields. `toEdges` maps output edge id to weight. -/
structure GateEl where
  label : String
  fromEdge : Option String
  condEval : Bool
  selectedToEdge : Option String
  toEdges : List (String × ℚ)
  deriving Repr, DecidableEq

/-- `Converter` fields. `fromEdges` is the JS object used as a set of
input edge ids (values are `true`). -/
structure ConverterEl where
  label : String
  token : String
  fromEdges : List (String × Bool)
  toEdge : Option String
  condEval : Bool
  requiredInputPerUnit : List (String × ℚ)
  buffer : List (String × ℚ)
  deriving Repr, DecidableEq

/-- `LiquidityPool` of a `Swap`. -/
structure LiquidityPool where
  token : Option String
  amount : ℚ
  deriving Repr, DecidableEq

/-- `Swap` fields.  Each pipe is a `[in, out]` pair of optional edge ids. -/
structure SwapEl where
  label : String
  pipes : List (Option String × Option String)
  tokenA : LiquidityPool
  tokenB : LiquidityPool
  condEval : Bool
  constraint : ℚ
  deriving Repr, DecidableEq

/-- The tagged union of all element kinds (`Element` in `nodes.ts`). -/
inductive Element where
  | pool (p : PoolEl)
  | gate (g : GateEl)
  | converter (c : ConverterEl)
  | swap (s : SwapEl)
  | edge (e : EdgeEl)
  deriving Repr, DecidableEq

def Element.label : Element → String
  | .pool p => p.label
  | .gate g => g.label
  | .converter c => c.label
  | .swap s => s.label
  | .edge e => e.label

def Element.isPool : Element → Bool
  | .pool _ => true
  | _ => false

def Element.isConverter : Element → Bool
  | .converter _ => true
  | _ => false

def Element.isSwap : Element → Bool
  | .swap _ => true
  | _ => false

def Element.isEdge : Element → Bool
  | .edge _ => true
  | _ => false

/-! ## Pool operations (`Pool` methods, nodes.ts lines 244–328) -/

/-- `Pool.setState`: clamp into `[0, capacity]`, or `[0, ∞)` when the
capacity is negative (unbounded). -/
def poolSetState (p : PoolEl) (s : ℚ) : PoolEl :=
  { p with state := if p.capacity < 0 then max 0 s else max 0 (min p.capacity s) }

/-- `Pool.setCapacity`: negative becomes `-1` (unlimited); otherwise the
state is truncated immediately when it exceeds the new capacity. -/
def poolSetCapacity (p : PoolEl) (c : ℚ) : PoolEl :=
  if c < 0 then { p with capacity := -1 }
  else
    let p1 := { p with capacity := c }
    if p1.state > p1.capacity then { p1 with state := p1.capacity } else p1

/-- `Pool._addToPool`: throws on a negative delta, otherwise adds through
`setState` and returns the amount actually added. -/
def poolAddToPool (p : PoolEl) (delta : ℚ) : Except String (PoolEl × ℚ) :=
  if delta < 0 then .error "must add a non-negative number"
  else
    let p1 := poolSetState p (p.state + delta)
    .ok (p1, p1.state - p.state)

/-- `Pool._takeFromPool`: throws on a negative amount, otherwise subtracts
through `setState` and returns the amount actually taken. -/
def poolTakeFromPool (p : PoolEl) (amount : ℚ) : Except String (PoolEl × ℚ) :=
  if amount < 0 then .error "must subtract a non-negative number"
  else
    let p1 := poolSetState p (p.state - amount)
    .ok (p1, p.state - p1.state)

/-- `Pool._nextTick`: when the condition evaluates to true, the state is
replaced by the action's value, re-clamped by `setState`.  The scope
write `scope.set("x", state)` and the expression evaluation are external;
their results are the `condEval` / `actionEval` fields. -/
def poolNextTick (p : PoolEl) : PoolEl :=
  if p.condEval then poolSetState p p.actionEval else p

/-- Invariant of claim C6: state within `[0, capacity]`, or `[0, ∞)` for
unbounded pools. -/
def poolInv (p : PoolEl) : Prop :=
  0 ≤ p.state ∧ (0 ≤ p.capacity → p.state ≤ p.capacity)

instance (p : PoolEl) : Decidable (poolInv p) := by
  unfold poolInv; infer_instance

/-! ## Converter operations (`Converter` methods, nodes.ts lines 505–649) -/

/-- `Converter._addToBuffer`: throws on negative amounts, otherwise adds
onto the current buffer amount (`|| 0` default for a missing token). -/
def convAddToBuffer (c : ConverterEl) (token : String) (amount : ℚ) :
    Except String ConverterEl :=
  if amount < 0 then .error "must add non-negative amount to element buffer"
  else
    let current := (jsGet c.buffer token).getD 0
    .ok { c with buffer := jsSet c.buffer token (current + amount) }

/-- `Converter._setRequiredInputPerUnit`: positive values only. -/
def convSetRequiredInputPerUnit (c : ConverterEl) (elementId : String) (value : ℚ) :
    Except String ConverterEl :=
  if value ≤ 0 then .error "must have positive element value requirement"
  else .ok { c with requiredInputPerUnit := jsSet c.requiredInputPerUnit elementId value }

/-- `Converter.deleteRequiredInputPerUnit` (never called by the Graph API —
see claim C8). -/
def convDeleteRequiredInputPerUnit (c : ConverterEl) (elementId : String) : ConverterEl :=
  { c with requiredInputPerUnit := jsDelete c.requiredInputPerUnit elementId }

/-- `Converter._deleteInput`: removes an entry of the `fromEdges` map. -/
def convDeleteInput (c : ConverterEl) (edgeId : String) : ConverterEl :=
  { c with fromEdges := jsDelete c.fromEdges edgeId }

/-- Loop body of `maximumConvertable`: walk the `requiredInputPerUnit`
entries in insertion order; `none` models the early `return 0` on a
required token missing from the buffer; otherwise collect
`buffer[id] / value` for every entry with a positive value. -/
def convRatios : List (String × ℚ) → List (String × ℚ) → Option (List ℚ)
  | [], _ => some []
  | (id, v) :: rest, buf =>
    match jsGet buf id with
    | none => none
    | some b => (convRatios rest buf).map (fun l => if v > 0 then (b / v) :: l else l)

/-- `min` (mathjs) over a nonempty list. -/
def listMin (x : ℚ) (xs : List ℚ) : ℚ := xs.foldl min x

/-- `Converter.maximumConvertable` (nodes.ts lines 609–630). -/
def maximumConvertable (c : ConverterEl) : ℚ :=
  if c.condEval = false then 0
  else
    match convRatios c.requiredInputPerUnit c.buffer with
    | none => 0
    | some [] => 0
    | some (r :: rs) => listMin r rs

/-- Private `Converter.consumeBuffer`. -/
def consumeBuffer (c : ConverterEl) (unitsProduced : ℚ) : ConverterEl :=
  if unitsProduced ≤ 0 then c
  else
    { c with
      buffer := c.requiredInputPerUnit.foldl
        (fun buf kv => jsSet buf kv.1 ((jsGet buf kv.1).getD 0 - kv.2 * unitsProduced))
        c.buffer }

/-- `Converter._takeFromState`. -/
def convTakeFromState (c : ConverterEl) (amount : ℚ) :
    Except String (ConverterEl × ℚ) :=
  if amount < 0 then .error "must subtract a non-negative number"
  else
    let maxConvertable := maximumConvertable c
    let taken := min amount maxConvertable
    .ok (consumeBuffer c taken, taken)

/-! ## Gate operations (`Gate` methods, nodes.ts lines 412–457) -/

/-- mathjs `sum`: throws on an empty array. -/
def jsSumE (l : List ℚ) : Except String ℚ :=
  match l with
  | [] => .error "Cannot calculate the sum of an empty array"
  | _ => .ok l.sum

/-- The in-place running-sum loop of `_randomSelect`
(`weights[i] += weights[i - 1] || 0`). -/
def cumWeights (acc : ℚ) : List ℚ → List ℚ
  | [] => []
  | w :: ws => (acc + w) :: cumWeights (acc + w) ws

/-- `Gate._randomSelect` (nodes.ts lines 441–457), with the uniform draw
`Math.random()` passed in as `u ∈ [0, 1)`.

JS faithfulness notes: the guard `this.toEdges.length === 0` compares
`undefined` with `0` (an object has no `length`), hence is always false,
so an empty output map reaches `sum([])`, which throws in mathjs.  After
the scan loop, the index is `weights.length` when no entry exceeded the
draw, and the final `keys[i]` is then `undefined` (`none` here). -/
def randomSelect (toEdges : List (String × ℚ)) (u : ℚ) :
    Except String (Option String) :=
  let weights := toEdges.map Prod.snd
  match jsSumE weights with
  | .error e => .error e
  | .ok total =>
    if total = 0 then .ok none
    else
      let cums := cumWeights 0 weights
      let random := u * cums.getLastD 0
      let i := cums.findIdx (fun x => random < x)
      .ok ((toEdges.map Prod.fst).get? i)

/-- `Gate._setOutput`. -/
def gateSetOutput (g : GateEl) (edgeId : String) (weight : ℚ) :
    Except String GateEl :=
  if weight < 0 then .error "output weight must be >= 0"
  else .ok { g with toEdges := jsSet g.toEdges edgeId weight }

/-- `Gate._nextTick` with the tick's uniform draw. -/
def gateNextTick (g : GateEl) (u : ℚ) : Except String GateEl :=
  (randomSelect g.toEdges u).map (fun sel => { g with selectedToEdge := sel })

/-! ## Swap operations (`Swap` methods, nodes.ts lines 688–835) -/

/-- `Swap.validateSwapConfig`: first failing check wins. -/
def validateSwapConfig (s : SwapEl) : Option String :=
  if s.tokenA.token = none ∨ s.tokenB.token = none then
    some "not all token names are defined"
  else if s.tokenA.amount ≤ 0 ∨ s.tokenB.amount ≤ 0 then
    some "all tokens must have positive amount"
  else if s.constraint ≤ 0 then
    some "must have positive constraint"
  else none

/-- `Swap.swap` (nodes.ts lines 785–810).  Returns the updated swap and
`none` when the swap cannot proceed (invalid config swallowed by the
`try/catch`, zero amount, failed condition, or unknown token); throws on
a negative amount; otherwise performs the constant-product update. -/
def swapSwap (s : SwapEl) (amount : ℚ) (token : String) :
    Except String (SwapEl × Option (String × ℚ)) :=
  match validateSwapConfig s with
  | some _ => .ok (s, none)
  | none =>
    if amount < 0 then .error "cannot swap negative amount of token"
    else if amount = 0 ∨ s.condEval = false ∨
        (some token ≠ s.tokenA.token ∧ some token ≠ s.tokenB.token) then
      .ok (s, none)
    else if some token = s.tokenA.token then
      let newA := s.tokenA.amount + amount
      let oldB := s.tokenB.amount
      let newB := s.constraint / newA
      .ok ({ s with tokenA := { s.tokenA with amount := newA },
                    tokenB := { s.tokenB with amount := newB } },
           some ((s.tokenB.token).getD "", oldB - newB))
    else
      let newB := s.tokenB.amount + amount
      let oldA := s.tokenA.amount
      let newA := s.constraint / newB
      .ok ({ s with tokenB := { s.tokenB with amount := newB },
                    tokenA := { s.tokenA with amount := newA } },
           some ((s.tokenA.token).getD "", oldA - newA))

/-- `Swap._getOrCreatePipe`: index must be at most the current length;
a missing slot at exactly the length is created as `[undefined, undefined]`. -/
def swapGetOrCreatePipe (s : SwapEl) (index : ℕ) :
    Except String (SwapEl × (Option String × Option String)) :=
  if index > s.pipes.length then .error "swap index out of range"
  else
    match s.pipes.get? index with
    | some p => .ok (s, p)
    | none => .ok ({ s with pipes := s.pipes ++ [(none, none)] }, (none, none))

/-- `Swap._deleteInput`: clears the `in` half of the pipe holding the
edge; a pipe left `[undefined, undefined]` is dropped instead. -/
def swapDeleteInput (s : SwapEl) (edgeId : String) : SwapEl :=
  match s.pipes.findIdx? (fun p => p.1 = some edgeId) with
  | none => s
  | some i =>
    match s.pipes.get? i with
    | none => s
    | some p =>
      if p.2 = none then
        { s with pipes := s.pipes.filter (fun q => !(q.1 = some edgeId : Bool)) }
      else
        { s with pipes := s.pipes.set i (none, p.2) }

/-- `Swap._deleteOutput`: symmetric to `_deleteInput` on the `out` half. -/
def swapDeleteOutput (s : SwapEl) (edgeId : String) : SwapEl :=
  match s.pipes.findIdx? (fun p => p.2 = some edgeId) with
  | none => s
  | some i =>
    match s.pipes.get? i with
    | none => s
    | some p =>
      if p.1 = none then
        { s with pipes := s.pipes.filter (fun q => !(q.2 = some edgeId : Bool)) }
      else
        { s with pipes := s.pipes.set i (p.1, none) }

/-! ## Node-level claims (C3, C4, C5, C6) -/

theorem poolInv_poolSetState (p : PoolEl) (x : ℚ) : poolInv (poolSetState p x) := by
  unfold poolInv poolSetState
  by_cases hc : p.capacity < 0
  · simp only [hc, if_true]
    exact ⟨le_max_left _ _, fun h0 => absurd hc (not_lt.mpr h0)⟩
  · push_neg at hc
    simp only [not_lt.mpr hc, if_false]
    exact ⟨le_max_left _ _, fun _ => max_le hc (min_le_left _ _)⟩

/-- C6: for every pool satisfying the state/capacity invariant, the state
remains at least `0` and, whenever the capacity is non-negative, at most
the capacity, after each public pool operation: `setState`, `setCapacity`,
`_addToPool`, `_takeFromPool` and the per-tick advance `_nextTick`.  The
commit of staged packets writes to a pool through `_addToPool` and is
covered by that clause. -/
theorem C6_pool_state_bounds (p : PoolEl) (h : poolInv p) :
    (∀ x, poolInv (poolSetState p x)) ∧
    (∀ c, poolInv (poolSetCapacity p c)) ∧
    (∀ d p1 r, poolAddToPool p d = .ok (p1, r) → poolInv p1) ∧
    (∀ a p1 r, poolTakeFromPool p a = .ok (p1, r) → poolInv p1) ∧
    poolInv (poolNextTick p) := by
  refine ⟨fun x => poolInv_poolSetState p x, fun c => ?_, ?_, ?_, ?_⟩
  · unfold poolSetCapacity
    by_cases hc : c < 0
    · simp only [hc, if_true]
      exact ⟨h.1, fun h0 => by norm_num at h0⟩
    · push_neg at hc
      simp only [not_lt.mpr hc, if_false]
      by_cases hs : p.state > c
      · simp only [hs, if_true]
        exact ⟨hc, fun _ => le_refl _⟩
      · simp only [hs, if_false]
        exact ⟨h.1, fun _ => not_lt.mp hs⟩
  · intro d p1 r hok
    unfold poolAddToPool at hok
    by_cases hd : d < 0
    · simp [hd] at hok
    · simp only [hd, if_false, Except.ok.injEq, Prod.mk.injEq] at hok
      exact hok.1 ▸ poolInv_poolSetState p (p.state + d)
  · intro a p1 r hok
    unfold poolTakeFromPool at hok
    by_cases ha : a < 0
    · simp [ha] at hok
    · simp only [ha, if_false, Except.ok.injEq, Prod.mk.injEq] at hok
      exact hok.1 ▸ poolInv_poolSetState p (p.state - a)
  · unfold poolNextTick
    by_cases hcond : p.condEval
    · simp only [hcond, if_true]; exact poolInv_poolSetState p p.actionEval
    · simp only [hcond, if_false]; exact h

def poolWitness : PoolEl :=
  { label := "p0", token := "p0_token", state := 1, capacity := 3,
    fromEdge := none, toEdge := none, condEval := true, actionEval := 7 }

theorem C6_pool_state_bounds_witness : poolInv (poolSetState poolWitness 5) :=
  (C6_pool_state_bounds poolWitness (by decide)).1 5

theorem convRatios_all_present (req : List (String × ℚ)) (buf : List (String × ℚ))
    (hpos : ∀ kv ∈ req, 0 < kv.2)
    (hall : ∀ kv ∈ req, (jsGet buf kv.1).isSome) :
    convRatios req buf = some (req.map fun kv => (jsGet buf kv.1).getD 0 / kv.2) := by
  induction req with
  | nil => rfl
  | cons kv rest ih =>
    obtain ⟨b, hb⟩ := Option.isSome_iff_exists.mp (hall kv (List.mem_cons_self _ _))
    have hv : 0 < kv.2 := hpos kv (List.mem_cons_self _ _)
    have ihr := ih (fun x hx => hpos x (List.mem_cons_of_mem _ hx))
      (fun x hx => hall x (List.mem_cons_of_mem _ hx))
    simp [convRatios, hb, ihr, hv]

theorem convRatios_missing (req : List (String × ℚ)) (buf : List (String × ℚ))
    (hmiss : ∃ kv ∈ req, jsGet buf kv.1 = none) :
    convRatios req buf = none := by
  induction req with
  | nil => obtain ⟨kv, h, _⟩ := hmiss; cases h
  | cons kv rest ih =>
    obtain ⟨x, hx, hnone⟩ := hmiss
    rcases List.mem_cons.mp hx with heq | hrest
    · subst heq
      simp [convRatios, hnone]
    · cases hb : jsGet buf kv.1 with
      | none => simp [convRatios, hb]
      | some b => simp [convRatios, hb, ih ⟨x, hrest, hnone⟩]

/-- C4: `Converter.maximumConvertable` returns `0` when the condition
fails, when `requiredInputPerUnit` is empty, or when a required token is
missing from the buffer; otherwise (all required tokens present, with the
positive per-unit amounts the API guarantees) it returns the minimum over
the required tokens `t` of `buffer[t] / requiredInputPerUnit[t]`. -/
theorem C4_maximumConvertable_spec (c : ConverterEl)
    (hpos : ∀ kv ∈ c.requiredInputPerUnit, 0 < kv.2) :
    (c.condEval = false → maximumConvertable c = 0) ∧
    (c.requiredInputPerUnit = [] → maximumConvertable c = 0) ∧
    ((∃ kv ∈ c.requiredInputPerUnit, jsGet c.buffer kv.1 = none) →
      maximumConvertable c = 0) ∧
    (∀ r rs, c.condEval = true →
      (c.requiredInputPerUnit.map fun kv => (jsGet c.buffer kv.1).getD 0 / kv.2) = r :: rs →
      (∀ kv ∈ c.requiredInputPerUnit, (jsGet c.buffer kv.1).isSome) →
      maximumConvertable c = listMin r rs) := by
  refine ⟨fun hcond => ?_, fun hreq => ?_, fun hmiss => ?_, fun r rs hcond hmap hall => ?_⟩
  · simp [maximumConvertable, hcond]
  · unfold maximumConvertable
    by_cases hcond : c.condEval = false
    · simp [hcond]
    · simp [hcond, hreq, convRatios]
  · unfold maximumConvertable
    by_cases hcond : c.condEval = false
    · simp [hcond]
    · simp [hcond, convRatios_missing c.requiredInputPerUnit c.buffer hmiss]
  · unfold maximumConvertable
    rw [hcond]
    simp only [Bool.true_eq_false, if_false]
    rw [convRatios_all_present c.requiredInputPerUnit c.buffer hpos hall, hmap]

def convWitness : ConverterEl :=
  { label := "c0", token := "c0_token", fromEdges := [], toEdge := none,
    condEval := true,
    requiredInputPerUnit := [("a", 2), ("b", 4)],
    buffer := [("a", 6), ("b", 4)] }

theorem C4_maximumConvertable_spec_witness :
    maximumConvertable convWitness = listMin 3 [1] :=
  (C4_maximumConvertable_spec convWitness (by decide)).2.2.2 3 [1] rfl
    (by show [(6:ℚ)/2, (4:ℚ)/4] = [3, 1]; norm_num) (by decide)

/-- C3 (code evaluated at the failing input): `Gate._randomSelect` on a
gate with no output edges does not return `undefined`.  The guard
`this.toEdges.length === 0` compares `undefined` to `0` on a plain
object and is always false, so the empty weight array reaches mathjs
`sum([])`, which throws; the enclosing `_nextTick` propagates the
exception.  The claim (and the code's own comment "return undefined if
no outputs defined") say the selection should be `none`. -/
theorem C3_randomSelect_no_outputs_throws :
    ∀ u : ℚ, randomSelect [] u = .error "Cannot calculate the sum of an empty array" :=
  fun _ => rfl

/-- C5: for a validly configured swap (both tokens defined and distinct,
both amounts positive, positive constraint), a successful
`swap(amount, token, scope)` with `amount > 0`, a true condition and
`token` one of the two pool tokens adds `amount` to the input side's
pool, resets the other side to `constraint / newInputPool` (so that the
product of the two pool amounts is exactly the stored constraint), and
returns the other side's decrease together with the other side's token. -/
theorem C5_swap_constant_product (s : SwapEl) (amount : ℚ) (token ta tb : String)
    (hta : s.tokenA.token = some ta) (htb : s.tokenB.token = some tb)
    (hne : ta ≠ tb)
    (hposA : 0 < s.tokenA.amount) (hposB : 0 < s.tokenB.amount)
    (hk : 0 < s.constraint)
    (hamt : 0 < amount) (hcond : s.condEval = true)
    (htok : token = ta ∨ token = tb) :
    ∃ s1 outTok outAmt,
      swapSwap s amount token = .ok (s1, some (outTok, outAmt)) ∧
      s1.tokenA.amount * s1.tokenB.amount = s.constraint ∧
      (token = ta →
        s1.tokenA.amount = s.tokenA.amount + amount ∧
        s1.tokenB.amount = s.constraint / (s.tokenA.amount + amount) ∧
        outTok = tb ∧ outAmt = s.tokenB.amount - s1.tokenB.amount) ∧
      (token = tb →
        s1.tokenB.amount = s.tokenB.amount + amount ∧
        s1.tokenA.amount = s.constraint / (s.tokenB.amount + amount) ∧
        outTok = ta ∧ outAmt = s.tokenA.amount - s1.tokenA.amount) := by
  have hvalid : validateSwapConfig s = none := by
    unfold validateSwapConfig
    rw [hta, htb]
    simp [not_le.mpr hposA, not_le.mpr hposB, not_le.mpr hk]
  have hknown : ¬(some token ≠ s.tokenA.token ∧ some token ≠ s.tokenB.token) := by
    rcases htok with h | h
    · rw [h, hta]; intro hcon; exact hcon.1 rfl
    · rw [h, htb]; intro hcon; exact hcon.2 rfl
  have hguards : ¬(amount = 0 ∨ s.condEval = false ∨
      (some token ≠ s.tokenA.token ∧ some token ≠ s.tokenB.token)) := by
    intro hcon
    rcases hcon with hc | hc | hc
    · exact hamt.ne' hc
    · rw [hcond] at hc; cases hc
    · exact hknown hc
  unfold swapSwap
  rw [hvalid]
  rw [if_neg (not_lt.mpr hamt.le), if_neg hguards]
  rcases htok with h | h
  · rw [h]
    rw [if_pos (show some ta = s.tokenA.token from hta.symm)]
    refine ⟨_, _, _, rfl, ?_, fun _ => ⟨rfl, rfl, ?_, rfl⟩, fun hba => absurd hba hne⟩
    · have hden : s.tokenA.amount + amount ≠ 0 := by positivity
      show (s.tokenA.amount + amount) * (s.constraint / (s.tokenA.amount + amount)) =
        s.constraint
      rw [mul_comm, div_mul_cancel₀ _ hden]
    · show (s.tokenB.token).getD "" = tb
      rw [htb]; rfl
  · rw [h]
    have hcase : ¬(some tb = s.tokenA.token) := by
      rw [hta]; intro hcon
      exact hne (Option.some.inj hcon).symm
    rw [if_neg hcase]
    refine ⟨_, _, _, rfl, ?_, fun hab => absurd hab.symm hne, fun _ => ⟨rfl, rfl, ?_, rfl⟩⟩
    · have hden : s.tokenB.amount + amount ≠ 0 := by positivity
      show (s.constraint / (s.tokenB.amount + amount)) * (s.tokenB.amount + amount) =
        s.constraint
      rw [div_mul_cancel₀ _ hden]
    · show (s.tokenA.token).getD "" = ta
      rw [hta]; rfl

def swapWitness : SwapEl :=
  { label := "s0", pipes := [],
    tokenA := { token := some "metal", amount := 100 },
    tokenB := { token := some "wood", amount := 100 },
    condEval := true, constraint := 10000 }

theorem C5_swap_constant_product_witness :
    ∃ s1 outTok outAmt,
      swapSwap swapWitness 25 "metal" = .ok (s1, some (outTok, outAmt)) ∧
      s1.tokenA.amount * s1.tokenB.amount = swapWitness.constraint := by
  obtain ⟨s1, outTok, outAmt, h1, h2, _, _⟩ :=
    C5_swap_constant_product swapWitness 25 "metal" "metal" "wood" rfl rfl
      (by decide) (by decide) (by decide) (by decide) (by decide) rfl (Or.inl rfl)
  exact ⟨s1, outTok, outAmt, h1, h2⟩

/-! ## Graph model (`graph.ts`, the object-map version with Swap support) -/

/-- `NodeType` enumeration. -/
inductive NodeType where
  | pool | gate | converter | swap
  deriving Repr, DecidableEq

/-- `ElementType` enumeration. -/
inductive ElementType where
  | pool | gate | converter | swap | edge
  deriving Repr, DecidableEq

/-- `autoLabelCounter` of the Graph. -/
structure AutoCounter where
  pool : ℕ
  gate : ℕ
  converter : ℕ
  edge : ℕ
  swap : ℕ
  deriving Repr, DecidableEq

/-- The `Graph` entity store: id → element, label → id, per-kind counters. -/
structure Graph where
  elements : List (String × Element)
  labels : List (String × String)
  counter : AutoCounter
  deriving Repr, DecidableEq

def emptyGraph : Graph :=
  { elements := [], labels := [],
    counter := { pool := 0, gate := 0, converter := 0, edge := 0, swap := 0 } }

/-- `_checkLabelValidity`. -/
def checkLabelValidity (label : String) : Except String String :=
  if isValidLabel label then .ok label
  else .error "`label` must follow javascript variable naming format"

/-- `new Pool(label)`: default token, state `0`, unlimited capacity, action
`"x"` and condition `"true"` (their evaluations at creation are `0` and
`true`). -/
def mkPool (label : String) : Except String PoolEl :=
  (checkLabelValidity label).map fun l =>
    { label := l, token := defaultToken l, state := 0, capacity := -1,
      fromEdge := none, toEdge := none, condEval := true, actionEval := 0 }

/-- `new Gate(label)`. -/
def mkGate (label : String) : Except String GateEl :=
  (checkLabelValidity label).map fun l =>
    { label := l, fromEdge := none, condEval := true, selectedToEdge := none,
      toEdges := [] }

/-- `new Converter(label)`. -/
def mkConverter (label : String) : Except String ConverterEl :=
  (checkLabelValidity label).map fun l =>
    { label := l, token := defaultToken l, fromEdges := [], toEdge := none,
      condEval := true, requiredInputPerUnit := [], buffer := [] }

/-- `new Swap(label)`: both liquidity pools start at `100` with undefined
tokens; the constraint starts at `100 · 100`. -/
def mkSwap (label : String) : Except String SwapEl :=
  (checkLabelValidity label).map fun l =>
    { label := l, pipes := [],
      tokenA := { token := none, amount := 100 },
      tokenB := { token := none, amount := 100 },
      condEval := true, constraint := 100 * 100 }

/-- `new Edge(label, fromNode, toNode, rate)`: negative rates normalise
to `-1`; the default condition is `"true"`. -/
def mkEdge (label fromNode toNode : String) (rate : ℚ) : Except String EdgeEl :=
  (checkLabelValidity label).map fun l =>
    { label := l, fromNode := fromNode, toNode := toNode,
      rate := if rate ≥ 0 then rate else -1, condEval := true }

/-- `addNode`'s constructor switch. -/
def mkNode (t : NodeType) (label : String) : Except String Element :=
  match t with
  | .pool => (mkPool label).map .pool
  | .gate => (mkGate label).map .gate
  | .converter => (mkConverter label).map .converter
  | .swap => (mkSwap label).map .swap

/-- Private `autoLabel`: synthesises `kind$<n>` and bumps the counter. -/
def autoLabel (g : Graph) (t : ElementType) : String × Graph :=
  match t with
  | .pool => ("pool$" ++ toString g.counter.pool,
      { g with counter := { g.counter with pool := g.counter.pool + 1 } })
  | .converter => ("converter$" ++ toString g.counter.converter,
      { g with counter := { g.counter with converter := g.counter.converter + 1 } })
  | .gate => ("gate$" ++ toString g.counter.gate,
      { g with counter := { g.counter with gate := g.counter.gate + 1 } })
  | .edge => ("edge$" ++ toString g.counter.edge,
      { g with counter := { g.counter with edge := g.counter.edge + 1 } })
  | .swap => ("swap$" ++ toString g.counter.swap,
      { g with counter := { g.counter with swap := g.counter.swap + 1 } })

/-- Private `autoLabelNode` (`type as string as ElementType`). -/
def autoLabelNode (g : Graph) (t : NodeType) : String × Graph :=
  autoLabel g (match t with
    | .pool => .pool
    | .gate => .gate
    | .converter => .converter
    | .swap => .swap)

/-- `Graph.addNode`.  Returns the thrown message (if any) together with
the state the graph is left in — note that the auto-label counter is
already bumped when the duplicate-label check throws. -/
def addNode (g : Graph) (t : NodeType) (id : String) (lbl? : Option String) :
    Option String × Graph :=
  if jsHas g.elements id then (some "id already exists", g)
  else
    let pair := match lbl? with
      | some l => (l, g)
      | none => autoLabelNode g t
    let labelName := pair.1
    let g1 := pair.2
    if jsHas g1.labels labelName then (some "duplicate label", g1)
    else
      match mkNode t labelName with
      | .error e => (some e, g1)
      | .ok el =>
        (none, { g1 with elements := jsSet g1.elements id el,
                         labels := jsSet g1.labels labelName id })

/-- Static `Graph.deleteNodeOutput`. -/
def deleteNodeOutput (el : Element) (edgeId : String) : Except String Element :=
  match el with
  | .edge _ => .error "cannot delete output of edge (edge-edge connection not allowed)"
  | .pool p => .ok (.pool { p with toEdge := none })
  | .gate gg => .ok (.gate { gg with toEdges := jsDelete gg.toEdges edgeId })
  | .converter c => .ok (.converter { c with toEdge := none })
  | .swap s => .ok (.swap (swapDeleteOutput s edgeId))

/-- Static `Graph.deleteNodeInput`. -/
def deleteNodeInput (el : Element) (edgeId : String) : Except String Element :=
  match el with
  | .edge _ => .error "cannot delete output of edge (edge-edge connection not allowed)"
  | .pool p => .ok (.pool { p with fromEdge := none })
  | .gate gg => .ok (.gate { gg with fromEdge := none })
  | .converter c => .ok (.converter (convDeleteInput c edgeId))
  | .swap s => .ok (.swap (swapDeleteInput s edgeId))

/-- `Graph.deleteElementInner`: the cascading delete, with fuel standing
in for the JS call stack (the real recursion terminates because each call
first removes its id from the element map). -/
def deleteElementInner :
    ℕ → Graph → String → List String → Except String (Graph × List String)
  | 0, _, _, _ => .error "recursion fuel exhausted"
  | fuel+1, g, id, deleted =>
    match jsGet g.elements id with
    | none => .ok (g, deleted)
    | some e =>
      let deleted1 := deleted ++ [id]
      let g1 : Graph := { g with elements := jsDelete g.elements id,
                                 labels := jsDelete g.labels e.label }
      let delOpt : Graph × List String → Option String →
          Except String (Graph × List String) := fun st o =>
        match o with
        | none => .ok st
        | some i => deleteElementInner fuel st.1 i st.2
      match e with
      | .pool p => do
        let st ← delOpt (g1, deleted1) p.fromEdge
        delOpt st p.toEdge
      | .converter c => do
        let st ← delOpt (g1, deleted1) c.toEdge
        (jsKeys c.fromEdges).foldlM (fun st i => delOpt st (some i)) st
      | .gate gg => do
        let st ← delOpt (g1, deleted1) gg.fromEdge
        (jsKeys gg.toEdges).foldlM (fun st i => delOpt st (some i)) st
      | .edge e => do
        let g2 ←
          match jsGet g1.elements e.fromNode with
          | none => pure g1
          | some fe => (deleteNodeOutput fe id).map fun fe2 =>
              { g1 with elements := jsSet g1.elements e.fromNode fe2 }
        let g3 ←
          match jsGet g2.elements e.toNode with
          | none => pure g2
          | some te => (deleteNodeInput te id).map fun te2 =>
              { g2 with elements := jsSet g2.elements e.toNode te2 }
        .ok (g3, deleted1)
      | .swap s =>
        s.pipes.foldlM
          (fun st pipe => do
            let st1 ← delOpt st pipe.1
            delOpt st1 pipe.2)
          (g1, deleted1)

/-- `Graph.deleteElement`: returns the ids removed (transitively). -/
def deleteElement (fuel : ℕ) (g : Graph) (id : String) :
    Except String (Graph × List String) :=
  deleteElementInner fuel g id []

/-- Private `Graph.setNodeOutputToEdge`.  Returns the thrown message (if
any) and the resulting graph; an error raised by a nested cascade delete
(possible only on corrupted states or fuel exhaustion) reports the
pre-delete state. -/
def setNodeOutputToEdge (fuel : ℕ) (g : Graph) (fromId edgeId : String)
    (swapIdx? : Option ℕ) : Option String × Graph :=
  match jsGet g.elements fromId with
  | none => (none, g)
  | some (.edge _) => (some "edge must not start from `Edge`", g)
  | some (.gate gg) =>
    (none, { g with elements := jsSet g.elements fromId (.gate { gg with toEdges := jsSet gg.toEdges edgeId 1 }) })
  | some (.swap s) =>
    match swapIdx? with
    | none => (some "missing swap input index", g)
    | some idx =>
      match swapGetOrCreatePipe s idx with
      | .error e => (some e, g)
      | .ok (s1, pipe) =>
        let g1 : Graph := { g with elements := jsSet g.elements fromId (.swap s1) }
        match pipe.2 with
        | some pipeOut =>
          match deleteElement fuel g1 pipeOut with
          | .error e => (some e, g1)
          | .ok (g2, _) =>
            -- the cascade ran `Swap._deleteOutput(pipeOut)` on this swap: a
            -- pipe with an empty `in` half was dropped and the JS write
            -- `pipe[1] = edgeId` then lands on a detached array (lost);
            -- otherwise the pipe is still at `idx` with its `out` cleared
            if pipe.1 = none then (none, g2)
            else
              match jsGet g2.elements fromId with
              | some (.swap s2) =>
                (none, { g2 with elements := jsSet g2.elements fromId (.swap { s2 with pipes := s2.pipes.set idx (pipe.1, some edgeId) }) })
              | _ => (none, g2)
        | none =>
          (none, { g1 with elements := jsSet g1.elements fromId (.swap { s1 with pipes := s1.pipes.set idx (pipe.1, some edgeId) }) })
  | some (.pool p) =>
    match p.toEdge with
    | some cur =>
      match deleteElement fuel g cur with
      | .error e => (some e, g)
      | .ok (g2, _) =>
        match jsGet g2.elements fromId with
        | some (.pool p2) =>
          (none, { g2 with elements := jsSet g2.elements fromId (.pool { p2 with toEdge := some edgeId }) })
        | _ => (none, g2)
    | none =>
      (none, { g with elements := jsSet g.elements fromId (.pool { p with toEdge := some edgeId }) })
  | some (.converter c) =>
    match c.toEdge with
    | some cur =>
      match deleteElement fuel g cur with
      | .error e => (some e, g)
      | .ok (g2, _) =>
        match jsGet g2.elements fromId with
        | some (.converter c2) =>
          (none, { g2 with elements := jsSet g2.elements fromId (.converter { c2 with toEdge := some edgeId }) })
        | _ => (none, g2)
    | none =>
      (none, { g with elements := jsSet g.elements fromId (.converter { c with toEdge := some edgeId }) })

/-- Private `Graph.setNodeInputToEdge` (mirror of the output side: pools
and gates displace their single input, converters accumulate, swaps use
the pipe's `in` half). -/
def setNodeInputToEdge (fuel : ℕ) (g : Graph) (toId edgeId : String)
    (swapIdx? : Option ℕ) : Option String × Graph :=
  match jsGet g.elements toId with
  | none => (none, g)
  | some (.edge _) => (some "edge must not point to `Edge`", g)
  | some (.pool p) =>
    match p.fromEdge with
    | some cur =>
      match deleteElement fuel g cur with
      | .error e => (some e, g)
      | .ok (g2, _) =>
        match jsGet g2.elements toId with
        | some (.pool p2) =>
          (none, { g2 with elements := jsSet g2.elements toId (.pool { p2 with fromEdge := some edgeId }) })
        | _ => (none, g2)
    | none =>
      (none, { g with elements := jsSet g.elements toId (.pool { p with fromEdge := some edgeId }) })
  | some (.gate gg) =>
    match gg.fromEdge with
    | some cur =>
      match deleteElement fuel g cur with
      | .error e => (some e, g)
      | .ok (g2, _) =>
        match jsGet g2.elements toId with
        | some (.gate g3) =>
          (none, { g2 with elements := jsSet g2.elements toId (.gate { g3 with fromEdge := some edgeId }) })
        | _ => (none, g2)
    | none =>
      (none, { g with elements := jsSet g.elements toId (.gate { gg with fromEdge := some edgeId }) })
  | some (.swap s) =>
    match swapIdx? with
    | none => (some "missing swap input index", g)
    | some idx =>
      match swapGetOrCreatePipe s idx with
      | .error e => (some e, g)
      | .ok (s1, pipe) =>
        let g1 : Graph := { g with elements := jsSet g.elements toId (.swap s1) }
        match pipe.1 with
        | some pipeIn =>
          match deleteElement fuel g1 pipeIn with
          | .error e => (some e, g1)
          | .ok (g2, _) =>
            if pipe.2 = none then (none, g2)
            else
              match jsGet g2.elements toId with
              | some (.swap s2) =>
                (none, { g2 with elements := jsSet g2.elements toId (.swap { s2 with pipes := s2.pipes.set idx (some edgeId, pipe.2) }) })
              | _ => (none, g2)
        | none =>
          (none, { g1 with elements := jsSet g1.elements toId (.swap { s1 with pipes := s1.pipes.set idx (some edgeId, pipe.2) }) })
  | some (.converter c) =>
    (none, { g with elements := jsSet g.elements toId (.converter { c with fromEdges := jsSet c.fromEdges edgeId true }) })

/-- `Graph.addEdge` (graph.ts lines 148–176).  The auto label (and thus
the edge counter bump) is computed before any validation, matching the
source; the returned graph is the state left behind, including the states
left by mid-way throws of the output/input linkage steps. -/
def addEdge (fuel : ℕ) (g : Graph) (edgeId fromId toId : String)
    (swapIdx? : Option ℕ) (rate : ℚ) (lbl? : Option String) :
    Option String × Graph :=
  let fromExists := jsHas g.elements fromId
  let toExists := jsHas g.elements toId
  let pair := match lbl? with
    | some l => (l, g)
    | none => autoLabel g ElementType.edge
  let labelName := pair.1
  let g1 := pair.2
  if !fromExists || !toExists then (some "connecting Node with non-existing id", g1)
  else if jsHas g1.elements edgeId then (some "edge id already exists", g1)
  else if fromId = toId then (some "cannot connect to self (self loop not allowed)", g1)
  else
    match setNodeOutputToEdge fuel g1 fromId edgeId swapIdx? with
    | (some e, g2) => (some e, g2)
    | (none, g2) =>
      match setNodeInputToEdge fuel g2 toId edgeId swapIdx? with
      | (some e, g3) => (some e, g3)
      | (none, g3) =>
        match mkEdge labelName fromId toId rate with
        | .error e => (some e, g3)
        | .ok edge =>
          (none, { g3 with elements := jsSet g3.elements edgeId (.edge edge),
                           labels := jsSet g3.labels labelName edgeId })

/-- Field update used by `setLabel` after validation (`_setLabel`; the
label was already validated by `validateLabel`, so the element-level
re-validation cannot fail). -/
def elSetLabel (e : Element) (l : String) : Element :=
  match e with
  | .pool p => .pool { p with label := l }
  | .gate g => .gate { g with label := l }
  | .converter c => .converter { c with label := l }
  | .swap s => .swap { s with label := l }
  | .edge e => .edge { e with label := l }

/-- `Graph.validateLabel`: id exists, label free, label lexically valid. -/
def validateLabel (g : Graph) (id label : String) : Except String Element :=
  match jsGet g.elements id with
  | none => .error "id not found"
  | some e =>
    if jsHas g.labels label then
      .error ("label '" ++ label ++ "' already exists")
    else if !isValidLabel label then
      .error "`label` must follow javascript variable naming format"
    else .ok e

/-- `Graph.setLabel`: validate, swap the label index entry, store the new
label on the element. -/
def setLabel (g : Graph) (id label : String) : Option String × Graph :=
  match validateLabel g id label with
  | .error e => (some e, g)
  | .ok e =>
    (none, { g with labels := jsSet (jsDelete g.labels e.label) label id,
                    elements := jsSet g.elements id (elSetLabel e label) })

/-- Private `Graph.upStreamTokenOf`: follow an element backwards to the
tokens that can flow from it; fuel models the JS call stack (a gate cycle
overflows it). -/
def upStreamTokenOf : ℕ → Graph → String → Except String (List String)
  | 0, _, _ => .error "RangeError: Maximum call stack size exceeded"
  | fuel+1, g, elementId =>
    match jsGet g.elements elementId with
    | some (.converter c) => .ok [c.token]
    | some (.pool p) => .ok [p.token]
    | some (.gate gg) =>
      match gg.fromEdge with
      | some i => upStreamTokenOf fuel g i
      | none => .ok []
    | some (.edge e) => upStreamTokenOf fuel g e.fromNode
    | _ => .ok []

/-- Set-union with JS `Set` insertion order. -/
def setAddAll (acc : List String) (l : List String) : List String :=
  l.foldl (fun a x => if x ∈ a then a else a ++ [x]) acc

/-- `Graph.upStreamTokensOfConverter`. -/
def upStreamTokensOfConverter (fuel : ℕ) (g : Graph) (c : ConverterEl) :
    Except String (List String) :=
  (jsKeys c.fromEdges).foldlM
    (fun acc edge => (upStreamTokenOf fuel g edge).map (setAddAll acc)) []

/-- `Graph.validateConverterRequiredInputPerUnit`: the element must be a
converter and every currently-required token must be available upstream
(the `token` argument itself is shadowed by the loop variable in the
source and plays no role in the validation). -/
def validateConverterRequiredInputPerUnit (fuel : ℕ) (g : Graph)
    (converterId : String) : Except String ConverterEl :=
  match jsGet g.elements converterId with
  | some (.converter c) =>
    match upStreamTokensOfConverter fuel g c with
    | .error e => .error e
    | .ok avail =>
      match (jsKeys c.requiredInputPerUnit).find? (fun t => !(avail.contains t)) with
      | some t => .error (t ++ " not available")
      | none => .ok c
  | _ => .error "Selected element is not a converter"

/-- `Graph.setConverterRequiredInputPerUnit` (graph.ts lines 313–324):
positive amounts set the per-unit requirement; non-positive amounts call
`converter._deleteInput(inputId)` — which removes `inputId` from the
`fromEdges` map, not from `requiredInputPerUnit` (see claim C8). -/
def setConverterRequiredInputPerUnit (fuel : ℕ) (g : Graph)
    (converterId inputId : String) (amount : ℚ) : Option String × Graph :=
  match validateConverterRequiredInputPerUnit fuel g converterId with
  | .error e => (some e, g)
  | .ok c =>
    if amount > 0 then
      match convSetRequiredInputPerUnit c inputId amount with
      | .error e => (some e, g)
      | .ok c2 =>
        (none, { g with elements := jsSet g.elements converterId (.converter c2) })
    else
      (none, { g with elements := jsSet g.elements converterId (.converter (convDeleteInput c inputId)) })

/-- `Graph.validateGateOutputWeight`; `setGateOutputWeight` calls it
without forwarding the weight, so the negative-weight check runs on the
default weight `1` and never fires. -/
def validateGateOutputWeight (g : Graph) (gateId edgeId : String) (weight : ℚ) :
    Except String GateEl :=
  match jsGet g.elements gateId with
  | some (.gate gg) =>
    match jsGet g.elements edgeId with
    | some (.edge _) =>
      if !jsHas gg.toEdges edgeId then
        .error "the output edge is not connected to this gate"
      else if weight < 0 then .error "output weight must be >= 0"
      else .ok gg
    | _ => .error "the output element must be specified as an edge"
  | _ => .error "Selected element is not a gate"

/-- `Graph.setGateOutputWeight`: after validation the weight is clamped
to the zero floor, so the element-level negative check cannot fire. -/
def setGateOutputWeight (g : Graph) (gateId edgeId : String) (weight : ℚ) :
    Option String × Graph :=
  match validateGateOutputWeight g gateId edgeId 1 with
  | .error e => (some e, g)
  | .ok gg =>
    (none, { g with elements := jsSet g.elements gateId (.gate { gg with toEdges := jsSet gg.toEdges edgeId (max 0 weight) }) })

/-! ## Graph-level claims (C7, C8, C10) -/

theorem autoLabel_elements (g : Graph) (t : ElementType) :
    (autoLabel g t).2.elements = g.elements ∧ (autoLabel g t).2.labels = g.labels := by
  cases t <;> simp [autoLabel]

theorem autoLabelNode_elements (g : Graph) (t : NodeType) :
    (autoLabelNode g t).2.elements = g.elements ∧
    (autoLabelNode g t).2.labels = g.labels := by
  cases t <;> simp [autoLabelNode, autoLabel]

/-- C10: `deleteElement(id)` for an id that is not a key of the elements
map returns the empty list of removed ids and leaves the graph (elements,
labels, linkage, counters) completely unchanged.  Any positive amount of
fuel suffices because the inner recursion returns before touching
anything. -/
theorem C10_deleteElement_missing_id (g : Graph) (id : String) (fuel : ℕ)
    (h : jsGet g.elements id = none) :
    deleteElement (fuel + 1) g id = .ok (g, []) := by
  simp [deleteElement, deleteElementInner, h]

def gC10 : Graph :=
  { elements := [("p", .pool poolWitness)], labels := [("p0", "p")],
    counter := { pool := 1, gate := 0, converter := 0, edge := 0, swap := 0 } }

theorem C10_deleteElement_missing_id_witness :
    deleteElement 5 gC10 "zzz" = .ok (gC10, []) :=
  C10_deleteElement_missing_id gC10 "zzz" 4 (by decide)

/-- Converter used in the C8 evaluation: requires 2 units of token `t`
per produced unit, fed by edge `e1`. -/
def cC8 : ConverterEl :=
  { label := "c", token := "c_token", fromEdges := [("e1", true)], toEdge := none,
    condEval := true, requiredInputPerUnit := [("t", 2)], buffer := [] }

def gC8 : Graph :=
  { elements :=
      [("p", .pool { label := "p", token := "t", state := 0, capacity := -1,
                     fromEdge := none, toEdge := some "e1", condEval := true,
                     actionEval := 0 }),
       ("c", .converter cC8),
       ("e1", .edge { label := "e", fromNode := "p", toNode := "c", rate := 1,
                      condEval := true })],
    labels := [("p", "p"), ("c", "c"), ("e", "e1")],
    counter := { pool := 0, gate := 0, converter := 0, edge := 0, swap := 0 } }

/-- C8 (code evaluated at the failing input): on a graph where pool `p`
(token `t`) feeds converter `c` whose `requiredInputPerUnit` is
`{t: 2}`, the call `setConverterRequiredInputPerUnit(c, t, 0)` succeeds
(no throw) but deletes nothing from `requiredInputPerUnit`: the
non-positive branch calls `Converter._deleteInput`, which removes the key
from the `fromEdges` map instead of calling
`deleteRequiredInputPerUnit`.  The graph is left completely unchanged,
while the claim (and the method's own doc comment) says the requirement
entry is removed. -/
theorem C8_nonpositive_amount_keeps_requirement :
    (setConverterRequiredInputPerUnit 10 gC8 "c" "t" 0).1 = none ∧
    (setConverterRequiredInputPerUnit 10 gC8 "c" "t" 0).2 = gC8 ∧
    jsGet cC8.requiredInputPerUnit "t" = some 2 := by decide

/-- C7 (counterexample): `addEdge` with an auto-generated label on the
empty graph throws `connecting Node with non-existing id`, yet the graph
is not exactly as before the call — the edge auto-label counter was
already incremented when the label was synthesised. -/
theorem C7_counterexample_counter_mutates :
    (addEdge 10 emptyGraph "e" "x" "y" none 1 none).1.isSome = true ∧
    ¬((addEdge 10 emptyGraph "e" "x" "y" none 1 none).2 = emptyGraph) := by decide

/-- C7 as amended: when a mutating operation throws during validation,
the elements map, label index and linkage are unchanged; the auto-label
counters may however already have advanced (they are bumped while the
label is synthesised, before validation), and for `addEdge` this is
guaranteed for the errors raised before linkage rewiring begins (missing
endpoint, duplicate edge id, self-loop).  With an explicit label the
graph is exactly as before.  `setLabel`,
`setConverterRequiredInputPerUnit` and `setGateOutputWeight` leave the
graph exactly as it was whenever they throw, and `deleteElement` of an
unknown id throws nothing and changes nothing. -/
theorem C7_throwing_ops_leave_graph_unchanged (g : Graph) :
    (∀ t id lbl?, (addNode g t id lbl?).1.isSome →
        (addNode g t id lbl?).2.elements = g.elements ∧
        (addNode g t id lbl?).2.labels = g.labels ∧
        (lbl?.isSome → (addNode g t id lbl?).2 = g)) ∧
    (∀ fuel edgeId fromId toId swapIdx? rate lbl?,
        (jsGet g.elements fromId = none ∨ jsGet g.elements toId = none ∨
         (jsGet g.elements edgeId).isSome ∨ fromId = toId) →
        (addEdge fuel g edgeId fromId toId swapIdx? rate lbl?).1.isSome = true ∧
        (addEdge fuel g edgeId fromId toId swapIdx? rate lbl?).2.elements = g.elements ∧
        (addEdge fuel g edgeId fromId toId swapIdx? rate lbl?).2.labels = g.labels ∧
        (lbl?.isSome → (addEdge fuel g edgeId fromId toId swapIdx? rate lbl?).2 = g)) ∧
    (∀ id lbl, (setLabel g id lbl).1.isSome → (setLabel g id lbl).2 = g) ∧
    (∀ fuel cid iid amt, (setConverterRequiredInputPerUnit fuel g cid iid amt).1.isSome →
        (setConverterRequiredInputPerUnit fuel g cid iid amt).2 = g) ∧
    (∀ gid eid w, (setGateOutputWeight g gid eid w).1.isSome →
        (setGateOutputWeight g gid eid w).2 = g) ∧
    (∀ id fuel, jsGet g.elements id = none →
        deleteElement (fuel + 1) g id = .ok (g, [])) := by
  refine ⟨?_, ?_, ?_, ?_, ?_, ?_⟩
  · intro t id lbl?
    unfold addNode
    by_cases h1 : jsHas g.elements id
    · simp [h1]
    · cases lbl? with
      | some l =>
        by_cases h2 : jsHas g.labels l
        · simp [h1, h2]
        · cases hm : mkNode t l with
          | error e => simp [h1, h2, hm]
          | ok el => simp [h1, h2, hm]
      | none =>
        obtain ⟨he, hl⟩ := autoLabelNode_elements g t
        by_cases h2 : jsHas g.labels (autoLabelNode g t).1
        · simp [h1, h2, he, hl]
        · cases hm : mkNode t (autoLabelNode g t).1 with
          | error e => simp [h1, h2, hm, he, hl]
          | ok el => simp [h1, h2, hm, hl]
  · intro fuel edgeId fromId toId swapIdx? rate lbl? hcond
    unfold addEdge
    have hg1e : ∀ l : Option String,
        (match l with
          | some l => (l, g)
          | none => autoLabel g ElementType.edge).2.elements = g.elements := by
      intro l; cases l <;> simp [autoLabel]
    have hg1l : ∀ l : Option String,
        (match l with
          | some l => (l, g)
          | none => autoLabel g ElementType.edge).2.labels = g.labels := by
      intro l; cases l <;> simp [autoLabel]
    by_cases h1 : jsHas g.elements fromId ∧ jsHas g.elements toId
    · by_cases h2 : jsHas g.elements edgeId
      · cases lbl? with
        | some l => simp [h1.1, h1.2, h2]
        | none => simp [h1.1, h1.2, h2, autoLabel]
      · by_cases h3 : fromId = toId
        · cases lbl? with
          | some l => simp [h1.1, h1.2, h2, h3]
          | none => simp [h1.1, h1.2, h2, h3, autoLabel]
        · exfalso
          rcases hcond with hc | hc | hc | hc
          · exact absurd hc (by simpa [jsHas, Option.isSome_iff_ne_none] using h1.1)
          · exact absurd hc (by simpa [jsHas, Option.isSome_iff_ne_none] using h1.2)
          · exact absurd hc (by simpa [jsHas] using h2)
          · exact h3 hc
    · rw [not_and_or] at h1
      rcases h1 with h1 | h1
      · cases lbl? with
        | some l => simp [jsHas] at h1; simp [jsHas, h1]
        | none => simp [jsHas] at h1; simp [jsHas, h1, autoLabel]
      · by_cases h0 : jsHas g.elements fromId
        · cases lbl? with
          | some l => simp [jsHas] at h1; simp [jsHas, h0, h1]
          | none => simp [jsHas] at h1; simp [jsHas, h0, h1, autoLabel]
        · cases lbl? with
          | some l => simp [jsHas] at h0; simp [jsHas, h0]
          | none => simp [jsHas] at h0; simp [jsHas, h0, autoLabel]
  · intro id lbl
    cases hv : validateLabel g id lbl with
    | error e => simp [setLabel, hv]
    | ok e => simp [setLabel, hv]
  · intro fuel cid iid amt
    cases hv : validateConverterRequiredInputPerUnit fuel g cid with
    | error e => simp [setConverterRequiredInputPerUnit, hv]
    | ok c =>
      by_cases ha : amt > 0
      · cases hs : convSetRequiredInputPerUnit c iid amt with
        | error e => simp [setConverterRequiredInputPerUnit, hv, ha, hs]
        | ok c2 => simp [setConverterRequiredInputPerUnit, hv, ha, hs]
      · simp [setConverterRequiredInputPerUnit, hv, ha]
  · intro gid eid w
    cases hv : validateGateOutputWeight g gid eid 1 with
    | error e => simp [setGateOutputWeight, hv]
    | ok gg => simp [setGateOutputWeight, hv]
  · intro id fuel h
    simp [deleteElement, deleteElementInner, h]

theorem C7_throwing_ops_leave_graph_unchanged_witness :
    (setLabel gC10 "nope" "q").2 = gC10 :=
  (C7_throwing_ops_leave_graph_unchanged gC10).2.2.1 "nope" "q" (by decide)

/-! ## Executor (`executor.ts`, current token-carrying version) -/

/-- An in-flight packet (`Packet`): source element id, token, value. -/
structure Packet where
  fromId : String
  token : String
  value : ℚ
  deriving Repr, DecidableEq

/-- Result of the source-resolution switch of `runEdge`. -/
inductive StepRes where
  | thrown (msg : String)
  | halt (g : Graph)
  | next (g : Graph) (pkt : Packet)

/-- The source switch of `runEdge` (executor.ts lines 422–470): pull from
a pool or converter, forward through a gate (requires an inbound packet
and a true gate condition), or exchange through a swap. -/
def resolveSource (g : Graph) (e : EdgeEl) (packet? : Option Packet) : StepRes :=
  match jsGet g.elements e.fromNode with
  | some (.converter c) =>
    match convTakeFromState c (if e.isUnlimited then maximumConvertable c else e.rate) with
    | .error msg => .thrown msg
    | .ok (c2, v) =>
      .next { g with elements := jsSet g.elements e.fromNode (.converter c2) }
        { fromId := e.fromNode, token := c.token, value := v }
  | some (.pool p) =>
    match poolTakeFromPool p (if e.isUnlimited then p.state else e.rate) with
    | .error msg => .thrown msg
    | .ok (p2, v) =>
      .next { g with elements := jsSet g.elements e.fromNode (.pool p2) }
        { fromId := e.fromNode, token := p.token, value := v }
  | some (.gate gg) =>
    match packet? with
    | none => .halt g
    | some pkt =>
      if gg.condEval = false then .halt g
      else
        .next g { fromId := pkt.fromId, token := pkt.token,
                  value := if e.isUnlimited then pkt.value else min pkt.value e.rate }
  | some (.swap s) =>
    match packet? with
    | none => .halt g
    | some pkt =>
      match swapSwap s pkt.value pkt.token with
      | .error msg => .thrown msg
      | .ok (s2, res) =>
        let g2 : Graph := { g with elements := jsSet g.elements e.fromNode (.swap s2) }
        match res with
        | none => .halt g2
        | some (tok, amt) =>
          .next g2 { fromId := pkt.fromId, token := tok, value := amt }
  | some (.edge _) => .thrown "bad data structure (edge-edge connection)"
  | none => .next g { fromId := e.fromNode, token := "", value := 0 }

/-- `runEdge` (executor.ts lines 404–511).  Fuel stands in for the JS
call stack; `none` means the recursion did not complete within the given
fuel (for no amount of fuel, on a divergent input).  Note that this
version of the executor has no `visited` set: the comment above
`executeSubgroup` still promises one, but `runEdge` recurses on gate and
swap destinations unconditionally. -/
def runEdge : ℕ → Graph → String → List (String × List Packet) → Option Packet →
    Option (Except String (Graph × List (String × List Packet)))
  | 0, _, _, _, _ => none
  | fuel+1, g, edgeId, outputs, packet? =>
    match jsGet g.elements edgeId with
    | some (.edge e) =>
      if e.condEval = false then some (.ok (g, outputs))
      else
        match resolveSource g e packet? with
        | .thrown msg => some (.error msg)
        | .halt g1 => some (.ok (g1, outputs))
        | .next g1 pkt =>
          if pkt.value ≤ 0 then some (.ok (g1, outputs))
          else
            match jsGet g1.elements e.toNode with
            | some (.gate gg) =>
              match gg.selectedToEdge with
              | some nextEdge => runEdge fuel g1 nextEdge outputs (some pkt)
              | none => some (.ok (g1, outputs))
            | some (.swap s) =>
              match s.pipes.find? (fun p => p.1 = some edgeId) with
              | none => some (.error "internal Error, pipe must not be undefined")
              | some pipe =>
                match pipe.2 with
                | some nextEdge => runEdge fuel g1 nextEdge outputs (some pkt)
                | none => some (.ok (g1, outputs))
            | _ =>
              some (.ok (g1,
                jsSet outputs e.toNode ((jsGet outputs e.toNode).getD [] ++ [pkt])))
    | _ => some (.ok (g, outputs))

/-- The entry-point loop of `executeSubgroup`. -/
def runEntries (fuel : ℕ) :
    List String → Graph → List (String × List Packet) →
    Option (Except String (Graph × List (String × List Packet)))
  | [], g, outputs => some (.ok (g, outputs))
  | e :: rest, g, outputs =>
    match runEdge fuel g e outputs none with
    | none => none
    | some (.error msg) => some (.error msg)
    | some (.ok (g1, o1)) => runEntries fuel rest g1 o1

/-- `executeSubgroup` (executor.ts lines 385–401): run every entry edge;
a group without entry points is dead and produces no output. -/
def executeSubgroup (fuel : ℕ) (g : Graph) (entryPoints : List String) :
    Option (Except String (Graph × List (String × List Packet))) :=
  if entryPoints.isEmpty then some (.ok (g, []))
  else runEntries fuel entryPoints g []

/-! ## C1: the traversal has no visited set and can revisit edges forever

The witness graph below is a pool feeding a two-gate edge cycle:
`p --e0--> g1 --e1--> g2 --e2--> g1`, with `g1` selecting `e1` and `g2`
selecting `e2`, and `e1`, `e2` unlimited.  Such linkage (two edges whose
`toNode` is `g1`) is not produced by `addEdge` (which displaces the
previous input), but `Graph.fromJSON` performs no linkage validation, so
the state is reachable through the public API.  The old executor's
per-subgroup visited set would stop the second visit of `e1`; the
current `runEdge` recurses forever. -/

def pC1 : PoolEl :=
  { label := "p", token := "t", state := 10, capacity := -1,
    fromEdge := none, toEdge := some "e0", condEval := true, actionEval := 0 }

/-- The witness topology, parameterised by the pool contents (the cycle
never touches the pool, so the divergence argument is uniform in it). -/
def gWithPool (p : PoolEl) : Graph :=
  { elements :=
      [("p", .pool p),
       ("e0", .edge { label := "le0", fromNode := "p", toNode := "g1", rate := 5,
                      condEval := true }),
       ("g1", .gate { label := "g1", fromEdge := some "e0", condEval := true,
                      selectedToEdge := some "e1", toEdges := [("e1", 1)] }),
       ("e1", .edge { label := "le1", fromNode := "g1", toNode := "g2", rate := -1,
                      condEval := true }),
       ("g2", .gate { label := "g2", fromEdge := some "e1", condEval := true,
                      selectedToEdge := some "e2", toEdges := [("e2", 1)] }),
       ("e2", .edge { label := "le2", fromNode := "g2", toNode := "g1", rate := -1,
                      condEval := true })],
    labels := [("p", "p"), ("le0", "e0"), ("g1", "g1"), ("le1", "e1"),
               ("g2", "g2"), ("le2", "e2")],
    counter := { pool := 0, gate := 0, converter := 0, edge := 0, swap := 0 } }

def gC1 : Graph := gWithPool pC1

/-- The pool after the entry edge took its rate of 5. -/
def pC1x : PoolEl := poolSetState pC1 (pC1.state - 5)

/-- The value the entry edge pulled out of the pool. -/
def vE0 : ℚ := pC1.state - pC1x.state

theorem runEdge_cycle_diverges (p : PoolEl) (v : ℚ) (hv : ¬ v ≤ 0) :
    ∀ fuel, runEdge fuel (gWithPool p) "e1" [] (some ⟨"p", "t", v⟩) = none ∧
            runEdge fuel (gWithPool p) "e2" [] (some ⟨"p", "t", v⟩) = none := by
  intro fuel
  induction fuel with
  | zero => exact ⟨rfl, rfl⟩
  | succ n ih =>
    refine ⟨?_, ?_⟩
    · have step : runEdge (n+1) (gWithPool p) "e1" [] (some ⟨"p", "t", v⟩) =
          if v ≤ 0 then some (.ok (gWithPool p, []))
          else runEdge n (gWithPool p) "e2" [] (some ⟨"p", "t", v⟩) := rfl
      rw [step, if_neg hv]
      exact ih.2
    · have step : runEdge (n+1) (gWithPool p) "e2" [] (some ⟨"p", "t", v⟩) =
          if v ≤ 0 then some (.ok (gWithPool p, []))
          else runEdge n (gWithPool p) "e1" [] (some ⟨"p", "t", v⟩) := rfl
      rw [step, if_neg hv]
      exact ih.1

/-- C1 (code evaluated at the failing input): subgroup execution on the
graph `gC1` — entry edge `e0` into the gate cycle `e1`/`e2` — never
completes, for any recursion depth: there is no visited set in the
current `runEdge` (contrary to the claim and to the comment above
`executeSubgroup`), so the traversal revisits `e1` and `e2` forever
instead of visiting each edge at most once and terminating. -/
theorem C1_subgroup_traversal_diverges :
    ∀ fuel, executeSubgroup fuel gC1 ["e0"] = none := by
  intro fuel
  cases fuel with
  | zero => rfl
  | succ n =>
    have hval : vE0 = 5 := by norm_num [vE0, pC1x, pC1, poolSetState]
    have hne : ¬ vE0 ≤ 0 := by rw [hval]; norm_num
    have step : runEdge (n+1) gC1 "e0" [] none =
        if vE0 ≤ 0 then some (.ok (gWithPool pC1x, []))
        else runEdge n (gWithPool pC1x) "e1" [] (some ⟨"p", "t", vE0⟩) := rfl
    have hrun : runEdge (n+1) gC1 "e0" [] none = none := by
      rw [step, if_neg hne]
      exact (runEdge_cycle_diverges pC1x vE0 hne n).1
    show runEntries (n+1) ["e0"] gC1 [] = none
    show (match runEdge (n+1) gC1 "e0" [] none with
      | none => none
      | some (.error msg) => some (.error msg)
      | some (.ok (g1, o1)) => runEntries (n+1) [] g1 o1) = none
    rw [hrun]

/-! ## Compiler (`compiler.ts` / part_008): activation and the two cuts -/

/-- Element maps handled by the compiler (`{ [key: ElementId]: Element }`). -/
abbrev EMap := List (String × Element)

/-- A DFS vertex: an element id together with the swap-pipe index through
which it was entered (`currentSwapIndex`). -/
abbrev Vtx := String × Option ℕ

/-- JS `Array.prototype.findIndex`, as an `Option ℕ`. -/
def jsFindIdx {α : Type} (p : α → Bool) : List α → Option ℕ
  | [] => none
  | x :: xs => if p x then some 0 else (jsFindIdx p xs).map (· + 1)

/-- `getNeighborsOf` (compiler lines 303–405).  Flags: `cutPool` drops the
pool-input adjacency, `cutConv` drops the converter-output adjacency,
`isCheck` makes gates expose every positive-weight output.  Swaps are
traversed per-pipe; note that the from-side of an edge searches the
pipes' `in` slots (`p[0]`), exactly as the source does, so an edge
leaving a swap never lists the swap as a neighbor. -/
def getNeighborsOf (ge : EMap) (cur : String) (cutPool cutConv isCheck : Bool)
    (idx? : Option ℕ) : List Vtx :=
  match jsGet ge cur with
  | none => []
  | some (.pool p) =>
    (match p.fromEdge with
     | some input => if !cutPool then [(input, none)] else []
     | none => []) ++
    (match p.toEdge with
     | some o => [(o, (none : Option ℕ))]
     | none => [])
  | some (.gate gg) =>
    (match gg.fromEdge with
     | some i => [(i, (none : Option ℕ))]
     | none => []) ++
    (if isCheck then
      (gg.toEdges.filter (fun kv => decide ((0:ℚ) < kv.2))).map (fun kv => (kv.1, none))
     else
      match gg.selectedToEdge with
      | some o => [(o, (none : Option ℕ))]
      | none => [])
  | some (.converter c) =>
    (jsKeys c.fromEdges).map (fun i => (i, (none : Option ℕ))) ++
    (match c.toEdge with
     | some o => if !cutConv then [(o, none)] else []
     | none => [])
  | some (.edge e) =>
    (if cutPool && ((jsGet ge e.toNode).map Element.isPool).getD false then []
     else
      match jsGet ge e.toNode with
      | some (.swap s) =>
        match jsFindIdx (fun q => q.1 = some cur) s.pipes with
        | some i =>
          match s.pipes.get? i with
          | some (some _, some _) => [(e.toNode, some i)]
          | _ => []
        | none => []
      | _ => [(e.toNode, none)]) ++
    (if cutConv && ((jsGet ge e.fromNode).map Element.isConverter).getD false then []
     else
      match jsGet ge e.fromNode with
      | some (.swap s) =>
        match jsFindIdx (fun q => q.1 = some cur) s.pipes with
        | some i =>
          match s.pipes.get? i with
          | some (some _, some _) => [(e.fromNode, some i)]
          | _ => []
        | none => []
      | _ => [(e.fromNode, none)])
  | some (.swap s) =>
    match idx? with
    | none => []
    | some k =>
      match s.pipes.get? k with
      | some (some pin, some pout) => [(pin, (none : Option ℕ)), (pout, none)]
      | _ => []

/-- `buildGroupInner` (compiler lines 241–288), fuelled.  The visited set
holds plain element ids; the source also adds `[id, swapIndex]` tuples
for per-pipe swap visits, but `Set.has` on a freshly allocated array is
reference equality and never fires, so tuple entries are semantically
invisible — a swap vertex is re-entered on every visit, and only its
edge neighbours (guarded by the plain string entries) stop the
recursion. -/
def buildGroupInner (ge : EMap) (cutPool cutConv isCheck : Bool) :
    ℕ → Vtx → List String × EMap → List String × EMap
  | 0, _, st => st
  | fuel+1, v, st =>
    match jsGet ge v.1 with
    | none => st
    | some el =>
      if st.1.contains v.1 then st
      else
        let st1 : List String × EMap :=
          (if v.2.isSome then st.1 else st.1 ++ [v.1], jsSet st.2 v.1 el)
        (getNeighborsOf ge v.1 cutPool cutConv isCheck v.2).foldl
          (fun st2 y => buildGroupInner ge cutPool cutConv isCheck fuel y st2) st1

/-- The common loop of `cutAtPoolInput` / `cutAtConverterInput`: start a
DFS from every unvisited non-Swap element, sharing one visited set. -/
def cutRun (cutPool cutConv isCheck : Bool) (fuel : ℕ) (ge : EMap) : List EMap :=
  (ge.foldl
    (fun (acc : List String × List EMap) kv =>
      if acc.1.contains kv.1 || ((jsGet ge kv.1).map Element.isSwap).getD false then acc
      else
        ((buildGroupInner ge cutPool cutConv isCheck fuel (kv.1, none) (acc.1, [])).1,
         acc.2 ++ [(buildGroupInner ge cutPool cutConv isCheck fuel (kv.1, none) (acc.1, [])).2]))
    ([], [])).2

/-- `activatePoolsAndGates` (compiler lines 53–85): advance every pool
and gate (outside check mode), disable the non-selected outputs of every
gate (or the zero-weight outputs in check mode), and drop disabled edges
from the element map.  `draw` supplies each gate's uniform draw. -/
def activatePoolsAndGates (g : Graph) (checkMode : Bool) (draw : String → ℚ) :
    Except String EMap := do
  let acc ← g.elements.foldlM
    (fun (acc : Graph × List String) kv => do
      let g1 := acc.1
      let dis := acc.2
      match jsGet g1.elements kv.1 with
      | some (.pool p) =>
        if checkMode then pure (g1, dis)
        else pure ({ g1 with elements := jsSet g1.elements kv.1 (.pool (poolNextTick p)) }, dis)
      | some (.gate gg) =>
        if checkMode then
          pure (g1, dis ++ ((gg.toEdges.filter (fun kv2 => decide (kv2.2 ≤ (0:ℚ)))).map Prod.fst))
        else do
          let gg2 ← gateNextTick gg (draw kv.1)
          let dis2 := (jsKeys gg2.toEdges).filter
            (fun id => !(decide (gg2.selectedToEdge = some id)))
          pure ({ g1 with elements := jsSet g1.elements kv.1 (.gate gg2) }, dis ++ dis2)
      | _ => pure (g1, dis))
    (g, [])
  pure (acc.1.elements.filter (fun kv => !(acc.2.contains kv.1)))

/-- The phase pipeline of `compileGraph` up to subgroup formation:
activate, cut at pool inputs, then cut each parallel group at converter
outputs. -/
def compileSubgroups (g : Graph) (checkMode : Bool) (draw : String → ℚ) (fuel : ℕ) :
    Except String (List (List EMap)) := do
  let act ← activatePoolsAndGates g checkMode draw
  pure ((cutRun true false checkMode fuel act).map
    (fun grp => cutRun true true checkMode fuel grp))

def countPools (m : EMap) : ℕ := (m.filter (fun kv => kv.2.isPool)).length

/-- The converter of the C2 counterexample: two pools feed it (the shape
of end-to-end scenario 4 of the spec). -/
def cC2 : ConverterEl :=
  { label := "c", token := "c_token", fromEdges := [("e1", true), ("e2", true)],
    toEdge := none, condEval := true,
    requiredInputPerUnit := [("t1", 2), ("t2", 1)], buffer := [] }

def geC2 : EMap :=
  [("p1", .pool { label := "p1", token := "t1", state := 10, capacity := -1,
                  fromEdge := none, toEdge := some "e1", condEval := false,
                  actionEval := 0 }),
   ("p2", .pool { label := "p2", token := "t2", state := 10, capacity := -1,
                  fromEdge := none, toEdge := some "e2", condEval := false,
                  actionEval := 0 }),
   ("c", .converter cC2),
   ("e1", .edge { label := "le1", fromNode := "p1", toNode := "c", rate := 4,
                  condEval := true }),
   ("e2", .edge { label := "le2", fromNode := "p2", toNode := "c", rate := 4,
                  condEval := true })]

def gC2 : Graph :=
  { elements := geC2,
    labels := [("p1", "p1"), ("p2", "p2"), ("c", "c"), ("le1", "e1"), ("le2", "e2")],
    counter := { pool := 0, gate := 0, converter := 0, edge := 0, swap := 0 } }

/-- C2 (counterexample): on the graph `p1 --e1--> c <--e2-- p2` — the
very shape of the spec's end-to-end scenario 4 — a regular (non-check)
tick compile produces a phase-C subgroup containing both pools, so a
subgroup is not limited to at most one Pool. -/
theorem C2_counterexample_two_pools_in_subgroup :
    (match compileSubgroups gC2 false (fun _ => 0) 20 with
      | .ok pgs => pgs.any (fun pg => pg.any (fun sg => 2 ≤ countPools sg))
      | .error _ => false) = true := by decide

/-! ## C2 (amended): at most one Converter per phase-C subgroup

The proof observes that under the phase-C flags (`cutPool = true`,
`cutConv = true`, non-check mode) every element has at most one
*forward* neighbour — a pool exposes only its output edge, a gate its
selected output, a swap pipe its `out` edge, an edge its destination —
and, on a linkage-consistent map, every other neighbour `y` of `x`
satisfies `fwd y = x`.  The adjacency is therefore contained in the
undirected closure of the partial function `fwd`, every element of a DFS
group shares a point of its `fwd`-chain with the group's start, and
converters are `fwd`-sinks, so a group cannot contain two of them. -/

/-- The unique forward neighbour of a vertex under the phase-C flags. -/
def fwd (ge : EMap) (v : Vtx) : Option Vtx :=
  match jsGet ge v.1 with
  | some (.pool p) => p.toEdge.map (fun o => (o, none))
  | some (.gate gg) => gg.selectedToEdge.map (fun o => (o, none))
  | some (.converter _) => none
  | some (.edge e) =>
    (match jsGet ge e.toNode with
     | some (.pool _) => none
     | some (.swap s) =>
       match jsFindIdx (fun q => q.1 = some v.1) s.pipes with
       | some i =>
         match s.pipes.get? i with
         | some (some _, some _) => some (e.toNode, some i)
         | _ => none
       | none => none
     | _ => some (e.toNode, none))
  | some (.swap s) =>
    match v.2 with
    | none => none
    | some k =>
      match s.pipes.get? k with
      | some (some _, some pout) => some (pout, none)
      | _ => none
  | none => none

/-- Iterated `fwd`. -/
def iterFwd (ge : EMap) : ℕ → Vtx → Option Vtx
  | 0, v => some v
  | n+1, v => (fwd ge v).bind (iterFwd ge n)

/-- Two vertices whose forward chains meet. -/
def meets (ge : EMap) (x y : Vtx) : Prop :=
  ∃ k m z, iterFwd ge k x = some z ∧ iterFwd ge m y = some z

/-- A vertex the DFS can actually hold: a pipe index only accompanies a
swap element. -/
def WfVtx (ge : EMap) (v : Vtx) : Prop :=
  v.2 = none ∨ ∃ s, jsGet ge v.1 = some (.swap s)

theorem iterFwd_add (ge : EMap) (a b : ℕ) (x : Vtx) :
    iterFwd ge (a + b) x = (iterFwd ge a x).bind (iterFwd ge b) := by
  induction a generalizing x with
  | zero => simp [iterFwd]
  | succ n ih =>
    have hsh : n + 1 + b = (n + b) + 1 := by omega
    rw [hsh]
    show (fwd ge x).bind (iterFwd ge (n + b)) =
      ((fwd ge x).bind (iterFwd ge n)).bind (iterFwd ge b)
    cases h : fwd ge x with
    | none => simp
    | some y => simp [ih]

theorem meets_refl (ge : EMap) (x : Vtx) : meets ge x x := ⟨0, 0, x, rfl, rfl⟩

theorem meets_of_fwd_target (ge : EMap) {x y s : Vtx}
    (h : fwd ge x = some y) (hm : meets ge x s) : meets ge y s := by
  obtain ⟨k, m, z, h1, h2⟩ := hm
  cases k with
  | zero =>
    have hz : x = z := Option.some.inj h1
    subst hz
    refine ⟨0, m + 1, y, rfl, ?_⟩
    rw [iterFwd_add ge m 1 s, h2]
    simp [iterFwd, h]
  | succ k0 =>
    refine ⟨k0, m, z, ?_, h2⟩
    rw [show iterFwd ge (k0+1) x = (fwd ge x).bind (iterFwd ge k0) from rfl, h] at h1
    simpa using h1

theorem meets_of_fwd_source (ge : EMap) {x y s : Vtx}
    (h : fwd ge y = some x) (hm : meets ge x s) : meets ge y s := by
  obtain ⟨k, m, z, h1, h2⟩ := hm
  refine ⟨k + 1, m, z, ?_, h2⟩
  rw [show iterFwd ge (k+1) y = (fwd ge y).bind (iterFwd ge k) from rfl, h]
  simpa using h1

theorem iterFwd_sink (ge : EMap) {x : Vtx} (hx : fwd ge x = none) :
    ∀ k z, iterFwd ge k x = some z → z = x := by
  intro k z hk
  cases k with
  | zero => exact (Option.some.inj hk).symm
  | succ k0 =>
    rw [show iterFwd ge (k0+1) x = (fwd ge x).bind (iterFwd ge k0) from rfl, hx] at hk
    cases hk

/-- Two `fwd`-sinks meeting the same chain are equal. -/
theorem meets_sinks_eq (ge : EMap) {s c1 c2 : Vtx}
    (h1 : fwd ge c1 = none) (h2 : fwd ge c2 = none)
    (m1 : meets ge c1 s) (m2 : meets ge c2 s) : c1 = c2 := by
  obtain ⟨k1, mm1, z1, ha1, hb1⟩ := m1
  obtain ⟨k2, mm2, z2, ha2, hb2⟩ := m2
  have hb1x : iterFwd ge mm1 s = some c1 := by
    rw [← iterFwd_sink ge h1 k1 z1 ha1]; exact hb1
  have hb2x : iterFwd ge mm2 s = some c2 := by
    rw [← iterFwd_sink ge h2 k2 z2 ha2]; exact hb2
  rcases le_total mm1 mm2 with hle | hle
  · obtain ⟨d, hd⟩ := Nat.exists_eq_add_of_le hle
    rw [hd, iterFwd_add, hb1x] at hb2x
    simp only [Option.some_bind] at hb2x
    exact (iterFwd_sink ge h1 d c2 hb2x).symm
  · obtain ⟨d, hd⟩ := Nat.exists_eq_add_of_le hle
    rw [hd, iterFwd_add, hb2x] at hb1x
    simp only [Option.some_bind] at hb1x
    exact iterFwd_sink ge h2 d c1 hb1x

theorem jsFindIdx_some {α : Type} (p : α → Bool) (l : List α) (i : ℕ)
    (h : jsFindIdx p l = some i) : ∃ x, l.get? i = some x ∧ p x = true := by
  induction l generalizing i with
  | nil => cases h
  | cons a as ih =>
    by_cases hp : p a
    · simp only [jsFindIdx, hp, if_true, Option.some.injEq] at h
      subst h
      exact ⟨a, rfl, hp⟩
    · simp only [jsFindIdx, hp, if_false, Bool.false_eq_true] at h
      rcases ho : jsFindIdx p as with _ | j
      · rw [ho] at h; cases h
      · rw [ho] at h
        simp only [Option.map_some', Option.some.injEq] at h
        obtain ⟨x, hx1, hx2⟩ := ih j ho
        subst h
        exact ⟨x, by simpa using hx1, hx2⟩

theorem jsGet_mem {α : Type} (m : List (String × α)) (k : String) (v : α)
    (h : jsGet m k = some v) : (k, v) ∈ m := by
  induction m with
  | nil => cases h
  | cons kv rest ih =>
    by_cases hk : kv.1 = k
    · simp only [jsGet, hk, if_true, Option.some.injEq] at h
      subst h
      rw [← hk]
      exact List.mem_cons_self _ _
    · simp only [jsGet, hk, if_false] at h
      exact List.mem_cons_of_mem _ (ih h)

/-- "If `f` is in the map at all, it is an edge whose `toNode` is `id`". -/
def edgeToNodeIsB (ge : EMap) (f id : String) : Bool :=
  match jsGet ge f with
  | some (.edge ee) => ee.toNode == id
  | some _ => false
  | none => true

theorem edgeToNodeIs_spec (ge : EMap) (f id : String)
    (h : edgeToNodeIsB ge f id = true) :
    ∀ el, jsGet ge f = some el → ∃ ee, el = Element.edge ee ∧ ee.toNode = id := by
  intro el hel
  unfold edgeToNodeIsB at h
  rw [hel] at h
  cases el with
  | edge ee => exact ⟨ee, rfl, by simpa using h⟩
  | pool p => cases h
  | gate gg => cases h
  | converter c => cases h
  | swap s => cases h

/-- Per-pipe consistency of a swap: a filled `in` slot holds an edge into
this swap, and it is the first pipe with that `in` slot (so the
`findIndex` searches resolve to this pipe). -/
def pipesConsistAux (ge : EMap) (sid : String)
    (allPipes : List (Option String × Option String)) :
    ℕ → List (Option String × Option String) → Bool
  | _, [] => true
  | k, p :: rest =>
    (match p.1 with
     | some f =>
       decide (jsFindIdx (fun q => q.1 = some f) allPipes = some k) &&
         edgeToNodeIsB ge f sid
     | none => true)
    && pipesConsistAux ge sid allPipes (k+1) rest

theorem pipesConsistAux_spec (ge : EMap) (sid : String)
    (allPipes : List (Option String × Option String)) :
    ∀ (k : ℕ) (rest : List (Option String × Option String)),
      pipesConsistAux ge sid allPipes k rest = true →
      ∀ (j : ℕ) (p : Option String × Option String), rest.get? j = some p →
        ∀ f, p.1 = some f →
          jsFindIdx (fun q => q.1 = some f) allPipes = some (k + j) ∧
          edgeToNodeIsB ge f sid = true := by
  intro k rest
  induction rest generalizing k with
  | nil => intro _ j p hp; cases hp
  | cons q rest ih =>
    intro h j p hp f hf
    rw [show pipesConsistAux ge sid allPipes k (q :: rest) =
      ((match q.1 with
        | some f =>
          decide (jsFindIdx (fun q2 => q2.1 = some f) allPipes = some k) &&
            edgeToNodeIsB ge f sid
        | none => true)
       && pipesConsistAux ge sid allPipes (k+1) rest) from rfl] at h
    rw [Bool.and_eq_true] at h
    cases j with
    | zero =>
      have hpq : q = p := by simpa using hp
      subst hpq
      rw [hf] at h
      rw [Bool.and_eq_true] at h
      have h1 := of_decide_eq_true h.1.1
      exact ⟨by simpa using h1, h.1.2⟩
    | succ j0 =>
      have hrest : rest.get? j0 = some p := by simpa using hp
      have := ih (k+1) h.2 j0 p hrest f hf
      refine ⟨?_, this.2⟩
      have heq : k + 1 + j0 = k + (j0 + 1) := by omega
      rw [← heq]
      exact this.1

/-- Per-element linkage consistency, as maintained by the public Graph
API on active element maps (each active edge is registered as its source
pool's output or its source gate's selected output; node input slots
hold edges into that node; pipes' `in` slots are first-match-unique). -/
def elemConsistB (ge : EMap) (id : String) : Element → Bool
  | .edge e =>
    (!(e.fromNode == e.toNode)) &&
    (match jsGet ge e.fromNode with
     | some (.edge _) => false
     | some (.pool p) => p.toEdge == some id
     | some (.gate gg) => gg.selectedToEdge == some id
     | _ => true)
  | .gate gg =>
    (match gg.fromEdge with
     | some f => edgeToNodeIsB ge f id
     | none => true)
  | .converter c => (jsKeys c.fromEdges).all (fun f => edgeToNodeIsB ge f id)
  | .pool _ => true
  | .swap s => pipesConsistAux ge id s.pipes 0 s.pipes

def consistentB (ge : EMap) : Bool :=
  ge.all (fun kv => elemConsistB ge kv.1 kv.2)

theorem consist_at (ge : EMap) (hc : consistentB ge = true) (id : String)
    (el : Element) (h : jsGet ge id = some el) : elemConsistB ge id el = true := by
  have hm := jsGet_mem ge id el h
  exact List.all_eq_true.mp hc (id, el) hm

end Plutus

namespace Plutus

/-! The neighbour classification and the DFS invariant for C2. -/

theorem edge_consist (ge : EMap) (hc : consistentB ge = true) (id : String)
    (e : EdgeEl) (h : jsGet ge id = some (.edge e)) :
    e.fromNode ≠ e.toNode ∧
    (∀ ee, jsGet ge e.fromNode ≠ some (.edge ee)) ∧
    (∀ p, jsGet ge e.fromNode = some (.pool p) → p.toEdge = some id) ∧
    (∀ gg, jsGet ge e.fromNode = some (.gate gg) → gg.selectedToEdge = some id) := by
  have hca := consist_at ge hc id _ h
  simp only [elemConsistB] at hca
  rw [Bool.and_eq_true] at hca
  refine ⟨by simpa using hca.1, ?_, ?_, ?_⟩
  · intro ee hee
    rw [hee] at hca
    cases hca.2
  · intro p hp
    rw [hp] at hca
    simpa using hca.2
  · intro gg hg
    rw [hg] at hca
    simpa using hca.2

theorem gate_consist (ge : EMap) (hc : consistentB ge = true) (id : String)
    (gg : GateEl) (h : jsGet ge id = some (.gate gg)) (f : String)
    (hf : gg.fromEdge = some f) :
    ∀ el, jsGet ge f = some el → ∃ ee, el = Element.edge ee ∧ ee.toNode = id := by
  have hca := consist_at ge hc id _ h
  simp only [elemConsistB] at hca
  rw [hf] at hca
  exact edgeToNodeIs_spec ge f id hca

theorem conv_consist (ge : EMap) (hc : consistentB ge = true) (id : String)
    (c : ConverterEl) (h : jsGet ge id = some (.converter c)) (f : String)
    (hf : f ∈ jsKeys c.fromEdges) :
    ∀ el, jsGet ge f = some el → ∃ ee, el = Element.edge ee ∧ ee.toNode = id := by
  have hca := consist_at ge hc id _ h
  simp only [elemConsistB] at hca
  exact edgeToNodeIs_spec ge f id (List.all_eq_true.mp hca f hf)

theorem swap_consist (ge : EMap) (hc : consistentB ge = true) (id : String)
    (s : SwapEl) (h : jsGet ge id = some (.swap s)) (k : ℕ)
    (p : Option String × Option String) (hk : s.pipes.get? k = some p)
    (f : String) (hf : p.1 = some f) :
    jsFindIdx (fun q => q.1 = some f) s.pipes = some k ∧
    (∀ el, jsGet ge f = some el → ∃ ee, el = Element.edge ee ∧ ee.toNode = id) := by
  have hca := consist_at ge hc id _ h
  simp only [elemConsistB] at hca
  have := pipesConsistAux_spec ge id s.pipes 0 s.pipes hca k p hk f hf
  rw [Nat.zero_add] at this
  exact ⟨this.1, edgeToNodeIs_spec ge f id this.2⟩

theorem neighbors_fwd (ge : EMap) (hc : consistentB ge = true) (x y : Vtx)
    (hx : WfVtx ge x) (hy : (jsGet ge y.1).isSome = true)
    (hmem : y ∈ getNeighborsOf ge x.1 true true false x.2) :
    fwd ge x = some y ∨ fwd ge y = some x := by
  unfold getNeighborsOf at hmem
  split at hmem
  · cases hmem
  · -- pool
    rename_i p hel
    rw [List.mem_append] at hmem
    rcases hmem with hmem | hmem
    · split at hmem
      · simp at hmem
      · cases hmem
    · split at hmem
      · rename_i o hto
        rw [List.mem_singleton] at hmem
        subst hmem
        exact Or.inl (by simp [fwd, hel, hto])
      · cases hmem
  · -- gate
    rename_i gg hel
    have hx2 : x.2 = none := by
      rcases hx with h2 | ⟨s0, hs0⟩
      · exact h2
      · rw [hs0] at hel; simp at hel
    have hxx : (x.1, (none : Option ℕ)) = x := by rw [← hx2]
    rw [List.mem_append] at hmem
    rcases hmem with hmem | hmem
    · split at hmem
      · rename_i f hin
        rw [List.mem_singleton] at hmem
        subst hmem
        obtain ⟨el2, hel2⟩ := Option.isSome_iff_exists.mp hy
        obtain ⟨ee, hee, htn⟩ := gate_consist ge hc x.1 gg hel f hin el2 hel2
        subst hee
        refine Or.inr ?_
        rw [← hxx]
        simp [fwd, hel2, htn, hel]
      · cases hmem
    · rw [if_neg (by decide : ¬((false : Bool) = true))] at hmem
      split at hmem
      · rename_i o hsel
        rw [List.mem_singleton] at hmem
        subst hmem
        exact Or.inl (by simp [fwd, hel, hsel])
      · cases hmem
  · -- converter
    rename_i c hel
    have hx2 : x.2 = none := by
      rcases hx with h2 | ⟨s0, hs0⟩
      · exact h2
      · rw [hs0] at hel; simp at hel
    have hxx : (x.1, (none : Option ℕ)) = x := by rw [← hx2]
    rw [List.mem_append] at hmem
    rcases hmem with hmem | hmem
    · obtain ⟨f, hfk, hy2⟩ := List.mem_map.mp hmem
      subst hy2
      obtain ⟨el2, hel2⟩ := Option.isSome_iff_exists.mp hy
      obtain ⟨ee, hee, htn⟩ := conv_consist ge hc x.1 c hel f hfk el2 hel2
      subst hee
      refine Or.inr ?_
      rw [← hxx]
      simp [fwd, hel2, htn, hel]
    · split at hmem
      · simp at hmem
      · cases hmem
  · -- edge
    rename_i e hel
    obtain ⟨hne, hnoee, hpool, hgate⟩ := edge_consist ge hc x.1 e hel
    have hx2 : x.2 = none := by
      rcases hx with h2 | ⟨s0, hs0⟩
      · exact h2
      · rw [hs0] at hel; simp at hel
    have hxx : (x.1, (none : Option ℕ)) = x := by rw [← hx2]
    rw [List.mem_append] at hmem
    rcases hmem with hmem | hmem
    · -- destination side
      split at hmem
      · cases hmem
      · rename_i hnp
        split at hmem
        · rename_i s hto
          split at hmem
          · rename_i i hfi
            split at hmem
            · rename_i pin pout hget
              rw [List.mem_singleton] at hmem
              subst hmem
              have hget2 : s.pipes[i]? = some (some pin, some pout) := by
                rw [← List.get?_eq_getElem?]; exact hget
              exact Or.inl (by simp [fwd, hel, hto, hfi, hget, hget2])
            · cases hmem
          · cases hmem
        · rename_i hnsw
          rw [List.mem_singleton] at hmem
          subst hmem
          refine Or.inl ?_
          cases hto : jsGet ge e.toNode with
          | none => simp [fwd, hel, hto]
          | some el2 =>
            cases el2 with
            | pool p2 => exact absurd (by simp [hto, Element.isPool]) hnp
            | swap s2 => exact absurd hto (by intro hcon; exact hnsw s2 hcon)
            | gate g2 => simp [fwd, hel, hto]
            | converter c2 => simp [fwd, hel, hto]
            | edge e2 => simp [fwd, hel, hto]
    · -- source side
      split at hmem
      · cases hmem
      · rename_i hnc
        split at hmem
        · rename_i s hfrom
          split at hmem
          · rename_i i hfi
            exfalso
            obtain ⟨q, hq, hq1⟩ := jsFindIdx_some _ _ _ hfi
            have hq1x : q.1 = some x.1 := of_decide_eq_true hq1
            obtain ⟨hfind, hspec⟩ :=
              swap_consist ge hc e.fromNode s hfrom i q hq x.1 hq1x
            obtain ⟨ee, hee, htn⟩ := hspec _ hel
            cases hee
            exact hne htn.symm
          · cases hmem
        · rename_i hnsw2
          rw [List.mem_singleton] at hmem
          subst hmem
          obtain ⟨el2, hel2⟩ := Option.isSome_iff_exists.mp hy
          cases el2 with
          | pool p2 =>
            refine Or.inr ?_
            rw [← hxx]
            have hout := hpool p2 hel2
            simp [fwd, hel2, hout]
          | gate g2 =>
            refine Or.inr ?_
            rw [← hxx]
            have hout := hgate g2 hel2
            simp [fwd, hel2, hout]
          | converter c2 => exact absurd (by simp [hel2, Element.isConverter]) hnc
          | edge e2 => exact absurd hel2 (hnoee e2)
          | swap s2 => exact absurd hel2 (by intro hcon; exact hnsw2 s2 hcon)
  · -- swap
    rename_i s hel
    split at hmem
    · cases hmem
    · rename_i k hk
      split at hmem
      · rename_i pin pout hget
        have hxx : (x.1, some k) = x := by rw [← hk]
        rw [List.mem_cons] at hmem
        rcases hmem with hmem | hmem
        · subst hmem
          obtain ⟨el2, hel2⟩ := Option.isSome_iff_exists.mp hy
          obtain ⟨hfind, hspec⟩ :=
            swap_consist ge hc x.1 s hel k (some pin, some pout) hget pin rfl
          obtain ⟨ee, hee, htn⟩ := hspec el2 hel2
          subst hee
          refine Or.inr ?_
          rw [← hxx]
          have hget2 : s.pipes[k]? = some (some pin, some pout) := by
            rw [← List.get?_eq_getElem?]; exact hget
          simp [fwd, hel2, htn, hel, hfind, hget, hget2]
        · rw [List.mem_singleton] at hmem
          subst hmem
          have hget2 : s.pipes[k]? = some (some pin, some pout) := by
            rw [← List.get?_eq_getElem?]; exact hget
          exact Or.inl (by simp [fwd, hel, hk, hget, hget2])
      · cases hmem

theorem neighbors_wf (ge : EMap) (x y : Vtx)
    (hmem : y ∈ getNeighborsOf ge x.1 true true false x.2) : WfVtx ge y := by
  unfold getNeighborsOf at hmem
  split at hmem
  · cases hmem
  · -- pool
    rw [List.mem_append] at hmem
    rcases hmem with hmem | hmem
    · split at hmem
      · simp at hmem
      · cases hmem
    · split at hmem
      · rw [List.mem_singleton] at hmem; subst hmem; exact Or.inl rfl
      · cases hmem
  · -- gate
    rw [List.mem_append] at hmem
    rcases hmem with hmem | hmem
    · split at hmem
      · rw [List.mem_singleton] at hmem; subst hmem; exact Or.inl rfl
      · cases hmem
    · rw [if_neg (by decide : ¬((false : Bool) = true))] at hmem
      split at hmem
      · rw [List.mem_singleton] at hmem; subst hmem; exact Or.inl rfl
      · cases hmem
  · -- converter
    rw [List.mem_append] at hmem
    rcases hmem with hmem | hmem
    · obtain ⟨i, hi, hy⟩ := List.mem_map.mp hmem
      exact Or.inl (by rw [← hy])
    · split at hmem
      · simp at hmem
      · cases hmem
  · -- edge
    rw [List.mem_append] at hmem
    rcases hmem with hmem | hmem
    · split at hmem
      · cases hmem
      · split at hmem
        · -- destination is a swap
          split at hmem
          · split at hmem
            · rw [List.mem_singleton] at hmem
              subst hmem
              exact Or.inr ⟨_, by assumption⟩
            · cases hmem
          · cases hmem
        · rw [List.mem_singleton] at hmem; subst hmem; exact Or.inl rfl
    · split at hmem
      · cases hmem
      · split at hmem
        · -- source is a swap
          split at hmem
          · split at hmem
            · rw [List.mem_singleton] at hmem
              subst hmem
              exact Or.inr ⟨_, by assumption⟩
            · cases hmem
          · cases hmem
        · rw [List.mem_singleton] at hmem; subst hmem; exact Or.inl rfl
  · -- swap
    split at hmem
    · cases hmem
    · split at hmem
      · rw [List.mem_cons] at hmem
        rcases hmem with hmem | hmem
        · subst hmem; exact Or.inl rfl
        · rw [List.mem_singleton] at hmem; subst hmem; exact Or.inl rfl
      · cases hmem

/-- A vertex whose id is absent from the element map is skipped by the
DFS (`if (element === undefined) return`). -/
theorem bgi_missing (ge : EMap) (cutPool cutConv isCheck : Bool) (v : Vtx)
    (st : List String × EMap) (hv : jsGet ge v.1 = none) :
    ∀ fuel, buildGroupInner ge cutPool cutConv isCheck fuel v st = st := by
  intro fuel
  cases fuel with
  | zero => rfl
  | succ n =>
    unfold buildGroupInner
    rw [hv]

/-- The DFS invariant: every element recorded in the group map is in the
underlying map, and every converter among them has a forward chain
meeting the chain of the group's start vertex `s`. -/
def BGInv (ge : EMap) (s : Vtx) (m : EMap) : Prop :=
  ∀ id el, jsGet m id = some el →
    jsGet ge id = some el ∧
    (el.isConverter = true → ∃ j, meets ge (id, j) s)

/-- A converter is a sink of `fwd`, whatever pipe index accompanies it. -/
theorem fwd_converter_none (ge : EMap) (id : String) (c : ConverterEl)
    (h : jsGet ge id = some (.converter c)) (j : Option ℕ) :
    fwd ge (id, j) = none := by
  simp only [fwd, h]

/-- Folding the DFS over a list of vertices that each either meet the
start or are absent from the map preserves the invariant. -/
theorem bgi_foldl_inv (ge : EMap) (s : Vtx) (n : ℕ)
    (ih : ∀ (v : Vtx) (st : List String × EMap),
      meets ge v s → WfVtx ge v → BGInv ge s st.2 →
      BGInv ge s (buildGroupInner ge true true false n v st).2) :
    ∀ (l : List Vtx) (st : List String × EMap),
      (∀ y ∈ l, (meets ge y s ∧ WfVtx ge y) ∨ jsGet ge y.1 = none) →
      BGInv ge s st.2 →
      BGInv ge s
        ((l.foldl (fun st2 y => buildGroupInner ge true true false n y st2) st)).2 := by
  intro l
  induction l with
  | nil => intro st _ hinv; exact hinv
  | cons y ys ihl =>
    intro st hall hinv
    rw [List.foldl_cons]
    apply ihl
    · intro z hz
      exact hall z (List.mem_cons_of_mem _ hz)
    · rcases hall y (List.mem_cons_self _ _) with ⟨hm, hw⟩ | hnone
      · exact ih y st hm hw hinv
      · rw [bgi_missing ge true true false y st hnone n]
        exact hinv

/-- `buildGroupInner` under the phase-C flags preserves the invariant on
linkage-consistent maps: every vertex it visits still meets the start. -/
theorem bgi_inv (ge : EMap) (hc : consistentB ge = true) (s : Vtx) :
    ∀ (fuel : ℕ) (v : Vtx) (st : List String × EMap),
      meets ge v s → WfVtx ge v → BGInv ge s st.2 →
      BGInv ge s (buildGroupInner ge true true false fuel v st).2 := by
  intro fuel
  induction fuel with
  | zero => intro v st _ _ hinv; exact hinv
  | succ n ih =>
    intro v st hmv hwv hinv
    unfold buildGroupInner
    split
    · exact hinv
    · rename_i el hel
      split
      · exact hinv
      · apply bgi_foldl_inv ge s n ih
        · intro y hymem
          cases hyy : jsGet ge y.1 with
          | none => exact Or.inr rfl
          | some ely =>
            refine Or.inl ⟨?_, neighbors_wf ge v y hymem⟩
            rcases neighbors_fwd ge hc v y hwv (by rw [hyy]; rfl) hymem with hf | hf
            · exact meets_of_fwd_target ge hf hmv
            · exact meets_of_fwd_source ge hf hmv
        · show BGInv ge s (jsSet st.2 v.1 el)
          intro id el2 hid
          rw [jsGet_jsSet] at hid
          by_cases hidv : id = v.1
          · rw [if_pos hidv] at hid
            subst hidv
            cases Option.some.inj hid
            exact ⟨hel, fun _ => ⟨v.2, hmv⟩⟩
          · rw [if_neg hidv] at hid
            exact hinv id el2 hid

/-- A group map satisfying the invariant holds at most one converter:
converters are `fwd`-sinks, and two sinks meeting the start's chain
coincide. -/
theorem group_one_converter (ge : EMap) (s : Vtx) (m : EMap)
    (hinv : BGInv ge s m) :
    ∀ c1 c2 cc1 cc2, jsGet m c1 = some (.converter cc1) →
      jsGet m c2 = some (.converter cc2) → c1 = c2 := by
  intro c1 c2 cc1 cc2 h1 h2
  obtain ⟨hg1, hm1⟩ := hinv c1 _ h1
  obtain ⟨hg2, hm2⟩ := hinv c2 _ h2
  obtain ⟨j1, hj1⟩ := hm1 rfl
  obtain ⟨j2, hj2⟩ := hm2 rfl
  have hs1 : fwd ge (c1, j1) = none := fwd_converter_none ge c1 cc1 hg1 j1
  have hs2 : fwd ge (c2, j2) = none := fwd_converter_none ge c2 cc2 hg2 j2
  have := meets_sinks_eq ge hs1 hs2 hj1 hj2
  exact congrArg Prod.fst this

/-- Each group appended by the `cutAtConverterInput` loop satisfies the
one-converter bound. -/
theorem cutRun_foldl_one_converter (ge : EMap) (hc : consistentB ge = true)
    (fuel : ℕ) :
    ∀ (l : List (String × Element)) (acc : List String × List EMap),
      (∀ grp ∈ acc.2, ∀ c1 c2 cc1 cc2, jsGet grp c1 = some (.converter cc1) →
        jsGet grp c2 = some (.converter cc2) → c1 = c2) →
      ∀ grp ∈ (l.foldl
        (fun (acc : List String × List EMap) kv =>
          if acc.1.contains kv.1 || ((jsGet ge kv.1).map Element.isSwap).getD false then acc
          else
            ((buildGroupInner ge true true false fuel (kv.1, none) (acc.1, [])).1,
             acc.2 ++ [(buildGroupInner ge true true false fuel (kv.1, none) (acc.1, [])).2]))
        acc).2,
        ∀ c1 c2 cc1 cc2, jsGet grp c1 = some (.converter cc1) →
          jsGet grp c2 = some (.converter cc2) → c1 = c2 := by
  intro l
  induction l with
  | nil => intro acc hacc; exact hacc
  | cons kv l ihl =>
    intro acc hacc
    rw [List.foldl_cons]
    apply ihl
    by_cases hcond :
        (acc.1.contains kv.1 || ((jsGet ge kv.1).map Element.isSwap).getD false) = true
    · rw [if_pos hcond]
      exact hacc
    · rw [if_neg hcond]
      intro grp hgrp
      rcases List.mem_append.mp hgrp with hin | hin
      · exact hacc grp hin
      · rw [List.mem_singleton] at hin
        subst hin
        exact group_one_converter ge (kv.1, none) _
          (bgi_inv ge hc (kv.1, none) fuel (kv.1, none) (acc.1, [])
            (meets_refl ge _) (Or.inl rfl) (fun id el h => by simp [jsGet] at h))

/-- C2 (amended): on a linkage-consistent element map, every subgroup
produced by the phase-C cut of a regular (non-check) tick contains at
most one Converter; the analogous bound for Pools is false (see the
counterexample). -/
theorem C2_subgroups_at_most_one_converter (ge : EMap) (fuel : ℕ)
    (hc : consistentB ge = true) :
    ∀ grp ∈ cutRun true true false fuel ge,
      ∀ c1 c2 cc1 cc2, jsGet grp c1 = some (.converter cc1) →
        jsGet grp c2 = some (.converter cc2) → c1 = c2 := by
  intro grp hgrp
  unfold cutRun at hgrp
  exact cutRun_foldl_one_converter ge hc fuel ge ([], [])
    (fun g hg => absurd hg (List.not_mem_nil g)) grp hgrp

/-- The group the phase-C cut builds from `geC2`, in DFS insertion
order. -/
def grpW : EMap :=
  [("p1", .pool { label := "p1", token := "t1", state := 10, capacity := -1,
                  fromEdge := none, toEdge := some "e1", condEval := false,
                  actionEval := 0 }),
   ("e1", .edge { label := "le1", fromNode := "p1", toNode := "c", rate := 4,
                  condEval := true }),
   ("c", .converter cC2),
   ("e2", .edge { label := "le2", fromNode := "p2", toNode := "c", rate := 4,
                  condEval := true }),
   ("p2", .pool { label := "p2", token := "t2", state := 10, capacity := -1,
                  fromEdge := none, toEdge := some "e2", condEval := false,
                  actionEval := 0 })]

theorem C2_subgroups_at_most_one_converter_witness :
    consistentB geC2 = true ∧ grpW ∈ cutRun true true false 20 geC2 ∧
    jsGet grpW "c" = some (.converter cC2) ∧ ("c" : String) = "c" :=
  ⟨by decide, by decide, by decide,
   C2_subgroups_at_most_one_converter geC2 20 (by decide) grpW (by decide)
     "c" "c" cC2 cC2 (by decide) (by decide)⟩

/-! ## JSON layer (C9) -/

/-- Serialized graph data: the object produced by
`JSON.parse(JSON.stringify(graph))`.  `toJSON` itself is not part of the
sources (JSON adapters are external collaborators per spec §1); per spec
§6 every element serializes to a plain object holding its kind tag and
fields, which is exactly the payload the `Element` type carries. -/
structure GraphData where
  elements : List (String × Element)
  labels : List (String × String)
  counter : AutoCounter
  deriving Repr, DecidableEq

/-- Modelled from the spec: `toJSON` (not present under `src/`; spec §6
"Each element serializes to a plain object holding its kind tag and its
fields; expressions are serialized as their source strings"; auto-label
counters are preserved).  Serialization is field-wise. -/
def toJSON (g : Graph) : GraphData :=
  { elements := g.elements, labels := g.labels, counter := g.counter }

/-- An entry of a graph reloaded by `fromJSON`: either a reconstructed
class instance, or the raw parsed object left in place when the
reconstruction switch has no case for its kind (calling any method on
the latter throws a `TypeError` at run time). -/
inductive JElem where
  | inst (e : Element)
  | plain (e : Element)
  deriving Repr, DecidableEq

/-- A graph as left behind by `fromJSON`. -/
structure JGraph where
  elements : List (String × JElem)
  labels : List (String × String)
  counter : AutoCounter
  deriving Repr, DecidableEq

/-- `Graph.fromJSON` (graph.ts lines 576–596): `Object.assign` adopts the
parsed fields, then each element entry is rebuilt by kind through
`Edge.fromJson` / `Converter.fromJson` / `Pool.fromJson` /
`Gate.fromJson`.  The switch has no `ElementType.Swap` case, so a swap
entry keeps the raw parsed object. -/
def fromJSON (d : GraphData) : JGraph :=
  { elements := d.elements.map (fun kv =>
      (kv.1, match kv.2 with
        | .edge e => JElem.inst (.edge e)
        | .converter c => JElem.inst (.converter c)
        | .pool p => JElem.inst (.pool p)
        | .gate gg => JElem.inst (.gate gg)
        | .swap s => JElem.plain (.swap s))),
    labels := d.labels,
    counter := d.counter }

def sC9 : SwapEl :=
  { label := "s", pipes := [],
    tokenA := { token := some "metal", amount := 100 },
    tokenB := { token := some "wood", amount := 100 },
    condEval := true, constraint := 10000 }

def gC9 : Graph :=
  { elements := [("s", .swap sC9)], labels := [("s", "s")],
    counter := { pool := 0, gate := 0, converter := 0, edge := 0, swap := 1 } }

/-- C9 (code evaluated at the failing input): round-tripping a graph that
contains an Exchanger leaves its element as the raw parsed object rather
than a reconstructed `Swap` — the `fromJSON` switch has no Swap case —
so the reloaded graph is not observationally equal to the original: the
first `checkGraph`/`nextTick` on it calls `validateSwapConfig` /
`_getPipes` on a method-less plain object and throws a `TypeError`,
while the original graph ticks normally. -/
theorem C9_fromJSON_drops_swap :
    jsGet gC9.elements "s" = some (.swap sC9) ∧
    (fromJSON (toJSON gC9)).elements = [("s", JElem.plain (.swap sC9))] ∧
    ((fromJSON (toJSON gC9)).elements.all (fun kv =>
      match kv.2 with
      | .inst _ => true
      | .plain _ => false)) = false := by decide

end Plutus
